import Mathlib

/-!
Shallow embedding of `pymnet/models.py` (configuration-model generators).

The source mutates a `MultilayerNetwork` object `net` (aspects = 0, undirected,
weights are only ever written as 0 or 1) and a flat stub list, driven by
`random.shuffle` and `random.sample`.  The embedding makes the randomness
explicit:

* the shuffled stub list is a parameter `stubs` (theorems that need the real
  distribution of stubs add the hypothesis that `stubs` is a permutation of the
  canonically built stub list `buildStubs degs`);
* every iteration of a `while repeat` rejection-sampling loop either leaves the
  whole state untouched (a rejected sample only reads) or commits a rewire, so
  a terminating execution of the source is exactly a run of the embedding on
  the list of accepted samples, one `Choice` per resolved self-loop occurrence
  / multi-edge round; the embedding returns `Err.choiceRejected` when handed a
  sample the source would have rejected and resampled.

The undirected weight-0/1 network is represented as the list of its committed
edges, stored as sorted pairs (the source always writes `net[a,b]` with the
pair in both orders collapsing to one undirected entry; setting weight 0
deletes the edge).  Python-2 integer division `len(stubs)/2` is `Nat` division,
`list.pop()` pops the last element, `dict`/`set` become association lists /
duplicate-free lists in insertion order.
-/

set_option maxRecDepth 10000
set_option synthInstance.maxSize 512
set_option maxHeartbeats 1600000

namespace Pymnet

abbrev Pair := Nat × Nat

/-- `sorted([a,b])` on two naturals. -/
def sortPair (a b : Nat) : Pair := if a ≤ b then (a, b) else (b, a)

/-- Reading the stub list (all source accesses are in bounds; out-of-bounds
reads default to 0 and never occur on the runs the theorems talk about). -/
def nth (l : List Nat) (i : Nat) : Nat := l.getD i 0

/-- The sorted candidate-edge pair of stub slot `s` (positions `2s`, `2s+1`). -/
def slotPair (stubs : List Nat) (s : Nat) : Pair :=
  sortPair (nth stubs (2 * s)) (nth stubs (2 * s + 1))

/-- `stubs[i],stubs[i+1] = p` (in-place double assignment of the source). -/
def stubsWrite (stubs : List Nat) (i : Nat) (p : Pair) : List Nat :=
  (stubs.set i p.1).set (i + 1) p.2

/-- The target graph: committed edges as sorted pairs, each present once. -/
abbrev Net := List Pair

/-- `net[a,b]` for the sorted pair `p`: weight 1 when the edge is committed. -/
def netGet (net : Net) (p : Pair) : Nat := if p ∈ net then 1 else 0

/-- `net[a,b] = 1`: commits the edge (idempotent if already present). -/
def netSet1 (net : Net) (p : Pair) : Net := if p ∈ net then net else p :: net

/-- `net[a,b] = 0`: deletes the edge. -/
def netSet0 (net : Net) (p : Pair) : Net := net.erase p

/-- Degree of node `v` in the committed edge set. -/
def deg (net : Net) (v : Nat) : Nat := net.countP (fun p => p.1 == v || p.2 == v)

/-- Incidence count of `v` in the pair `p` (0, 1 or 2). -/
def inc (v : Nat) (p : Pair) : Nat :=
  (if p.1 = v then 1 else 0) + (if p.2 = v then 1 else 0)

/-- Error outcomes of a run.  The two `assert` statements of the source map to
`degreeSequenceError` / `layerMismatchError` (the names the specification's
error taxonomy gives them) and `assertionFailed` (the two in-loop asserts of
the multi-edge eliminator); `choiceRejected` models a sample the rejection
loop would discard and resample, `outOfChoices` a run given too few samples. -/
inductive Err where
  | degreeSequenceError
  | layerMismatchError
  | unsupportedAspectError
  | assertionFailed
  | choiceRejected
  | outOfChoices
deriving DecidableEq, Repr

abbrev Degs := List (Nat × Nat)

/-- One accepted `random.sample(xrange(len(stubs)/2),2)` outcome `(x, y)`
with `e1i = 2x`, `e2i = 2y`. -/
abbrev Choice := Nat × Nat

/-- The mutable state of the two elimination phases. -/
structure RWState where
  net : Net
  stubs : List Nat
deriving DecidableEq, Repr

/-- The bookkeeping built by the initial pairing scan. -/
structure Phase1State where
  net : Net
  selfedges : List (Nat × List Nat)
  multiedges : List Pair
  edgetoindex : List (Pair × List Nat)
deriving DecidableEq, Repr

/-- `d.get(k, [])` on an association list. -/
def alGet {α : Type} [DecidableEq α] : List (α × List Nat) → α → List Nat
  | [], _ => []
  | (k', v) :: rest, k => if k' = k then v else alGet rest k

/-- `d[k] = d.get(k, []) + [x]` on an association list. -/
def alApp {α : Type} [DecidableEq α] : List (α × List Nat) → α → Nat → List (α × List Nat)
  | [], k, x => [(k, [x])]
  | (k', v) :: rest, k, x =>
      if k' = k then (k', v ++ [x]) :: rest else (k', v) :: alApp rest k x

/-- `set.add` as duplicate-free insertion-ordered list. -/
def addPair (l : List Pair) (p : Pair) : List Pair := if p ∈ l then l else l ++ [p]

/-- One iteration of the initial pairing loop (`models.py` lines 44-55) for
slot `s`: record the slot in the edge-index registry, flag a duplicate as a
multi-edge, and either record a self-pairing or commit the edge. -/
def pairStep (stubs : List Nat) (st : Phase1State) (s : Nat) : Phase1State :=
  let p := slotPair stubs s
  let st1 : Phase1State := { st with edgetoindex := alApp st.edgetoindex p (2 * s) }
  let st2 : Phase1State :=
    if netGet st.net p ≠ 0 then { st1 with multiedges := addPair st1.multiedges p } else st1
  if p.1 = p.2 then { st2 with selfedges := alApp st2.selfedges p.1 (2 * s) }
  else { st2 with net := netSet1 st2.net p }

/-- The initial pairing loop over slots `0, 1, ..., n-1`. -/
def phase1Go (stubs : List Nat) : Nat → Phase1State → Phase1State
  | 0, st => st
  | s + 1, st => pairStep stubs (phase1Go stubs s st) s

/-- The full initial pairing scan (`for s in range(len(stubs)/2)`). -/
def phase1 (net0 : Net) (stubs : List Nat) : Phase1State :=
  phase1Go stubs (stubs.length / 2) ⟨net0, [], [], []⟩

/-- One accepted (or rejected) sample of the self-loop eliminator
(`models.py` lines 60-77), resolving the self-pairing of `node` recorded at
stub position `si`. -/
def selfRewire (multi : List Pair) (node si : Nat) (ch : Choice) (st : RWState) :
    Except Err RWState :=
  let e1i := 2 * ch.1
  let e2i := 2 * ch.2
  let a := nth st.stubs e1i
  let b := nth st.stubs (e1i + 1)
  let d := nth st.stubs e2i
  let e := nth st.stubs (e2i + 1)
  let c := [node, a, b, d, e]
  let q1 := sortPair a b
  let q2 := sortPair d e
  if ch.1 ≠ ch.2 ∧ ch.1 < st.stubs.length / 2 ∧ ch.2 < st.stubs.length / 2 ∧
     c.Nodup ∧ q1 ∉ multi ∧ q2 ∉ multi ∧
     netGet st.net (sortPair node q1.1) = 0 ∧
     netGet st.net (sortPair node q2.1) = 0 ∧
     netGet st.net (sortPair q1.2 q2.2) = 0 then
    let netA := netSet0 (netSet0 st.net q1) q2
    let netB := netSet1 (netSet1 (netSet1 netA (sortPair node q1.1))
                  (sortPair node q2.1)) (sortPair q1.2 q2.2)
    let stubs1 := stubsWrite st.stubs si (sortPair q1.2 q2.2)
    let stubs2 := stubsWrite stubs1 e1i (sortPair node q1.1)
    let stubs3 := stubsWrite stubs2 e2i (sortPair node q2.1)
    .ok ⟨netB, stubs3⟩
  else .error .choiceRejected

/-- The inner `for si in sis` loop of the self-loop eliminator, consuming one
accepted choice per occurrence. -/
def runSelfOccs (multi : List Pair) (node : Nat) :
    List Nat → List Choice → RWState → Except Err (RWState × List Choice)
  | [], cs, st => .ok (st, cs)
  | _ :: _, [], _ => .error .outOfChoices
  | si :: sis, ch :: cs, st =>
      match selfRewire multi node si ch st with
      | .error e => .error e
      | .ok st' => runSelfOccs multi node sis cs st'

/-- The outer `for node,sis in selfedges.items()` loop (`models.py` line 57). -/
def phase2Go (multi : List Pair) :
    List (Nat × List Nat) → List Choice → RWState → Except Err (RWState × List Choice)
  | [], cs, st => .ok (st, cs)
  | (node, sis) :: rest, cs, st =>
      match runSelfOccs multi node sis cs st with
      | .error e => .error e
      | .ok (st', cs') => phase2Go multi rest cs' st'

/-- One accepted (or rejected) sample of the multi-edge eliminator
(`models.py` lines 90-114) for the multi-edge `p = (n1,n2)` whose registry is
currently `reg`.  The two `assert net[...]==1` statements become the
`assertionFailed` branches; the second write to `stubs[si1]` (line 111 of the
source overwrites the pair just written at `si1` instead of writing at `si2`)
is reproduced literally. -/
def multiRound (multi : List Pair) (p : Pair) (reg : List Nat) (ch : Choice)
    (st : RWState) : Except Err (RWState × List Nat) :=
  let e1i := 2 * ch.1
  let e2i := 2 * ch.2
  let a := nth st.stubs e1i
  let b := nth st.stubs (e1i + 1)
  let d := nth st.stubs e2i
  let e := nth st.stubs (e2i + 1)
  let c := [p.1, p.2, a, b, d, e]
  let q1 := sortPair a b
  let q2 := sortPair d e
  if ch.1 ≠ ch.2 ∧ ch.1 < st.stubs.length / 2 ∧ ch.2 < st.stubs.length / 2 ∧
     c.Nodup ∧ q1 ∉ multi ∧ q2 ∉ multi ∧
     netGet st.net (sortPair p.1 q1.1) = 0 ∧
     netGet st.net (sortPair p.2 q1.2) = 0 ∧
     netGet st.net (sortPair p.1 q2.1) = 0 ∧
     netGet st.net (sortPair p.2 q2.2) = 0 then
    let net0 := if reg.length = 2 then netSet0 st.net p else st.net
    if netGet net0 q1 = 1 then
      if netGet net0 q2 = 1 then
        let netA := netSet0 (netSet0 net0 q1) q2
        let netB := netSet1 (netSet1 (netSet1 (netSet1 netA (sortPair p.1 q1.1))
                      (sortPair p.2 q1.2)) (sortPair p.1 q2.1)) (sortPair p.2 q2.2)
        let pop1 := reg.getLast?.getD 0
        let reg1 := reg.dropLast
        let pop2 := reg1.getLast?.getD 0
        let reg2 := reg1.dropLast
        let si1 := (sortPair pop1 pop2).1
        let stubs1 := stubsWrite st.stubs si1 (sortPair p.1 q1.1)
        let stubs2 := stubsWrite stubs1 si1 (sortPair p.2 q1.2)
        let stubs3 := stubsWrite stubs2 e1i (sortPair p.1 q2.1)
        let stubs4 := stubsWrite stubs3 e2i (sortPair p.2 q2.2)
        .ok (⟨netB, stubs4⟩, reg2)
      else .error .assertionFailed
    else .error .assertionFailed
  else .error .choiceRejected

/-- The `for dummy in range(int(math.floor(len(edgetoindex[(n1,n2)])/2.)))`
loop, one accepted choice per round. -/
def runMultiRounds (multi : List Pair) (p : Pair) :
    Nat → List Nat → List Choice → RWState → Except Err (RWState × List Nat × List Choice)
  | 0, reg, cs, st => .ok (st, reg, cs)
  | _ + 1, _, [], _ => .error .outOfChoices
  | r + 1, reg, ch :: cs, st =>
      match multiRound multi p reg ch st with
      | .error e => .error e
      | .ok (st', reg') => runMultiRounds multi p r reg' cs st'

/-- The outer `for n1,n2 in multiedges` loop (`models.py` line 87). -/
def phase3Go (multi : List Pair) (eti : List (Pair × List Nat)) :
    List Pair → List Choice → RWState → Except Err (RWState × List Choice)
  | [], cs, st => .ok (st, cs)
  | p :: rest, cs, st =>
      match runMultiRounds multi p ((alGet eti p).length / 2) (alGet eti p) cs st with
      | .error e => .error e
      | .ok (st', _, cs') => phase3Go multi eti rest cs' st'

/-- `sum(map(lambda x:x[0]*x[1],degs.items()))`. -/
def weightedSum (degs : Degs) : Nat := (degs.map (fun kn => kn.1 * kn.2)).sum

/-- The stubs contributed by `num` consecutive nodes of degree `k` starting
at identifier `base`. -/
def block (k : Nat) : Nat → Nat → List Nat
  | 0, _ => []
  | n + 1, base => List.replicate k base ++ block k n (base + 1)

/-- Stub list construction (`models.py` lines 36-41), nodes numbered from
`base` onwards. -/
def buildGo : Degs → Nat → List Nat
  | [], _ => []
  | (k, num) :: rest, base => block k num base ++ buildGo rest (base + num)

/-- The stub list built before shuffling. -/
def buildStubs (degs : Degs) : List Nat := buildGo degs 0

/-- The degree prescribed to node `v` by the degree sequence (nodes are
numbered sequentially through the entries). -/
def prescribedDeg : Degs → Nat → Nat
  | [], _ => 0
  | (k, num) :: rest, v => if v < num then k else prescribedDeg rest (v - num)

/-- `single_layer_conf(net, degs)` run on the shuffled stub list `stubs` with
accepted samples `cs2` (self-loop eliminator) and `cs3` (multi-edge
eliminator).  The parity `assert` on line 29 runs before anything else. -/
def single_layer_conf (net0 : Net) (degs : Degs) (stubs : List Nat)
    (cs2 cs3 : List Choice) : Except Err RWState :=
  if weightedSum degs % 2 ≠ 0 then .error .degreeSequenceError
  else
    let p1 := phase1 net0 stubs
    match phase2Go p1.multiedges p1.selfedges cs2 ⟨p1.net, stubs⟩ with
    | .error e => .error e
    | .ok (st2, _) =>
        match phase3Go p1.multiedges p1.edgetoindex p1.multiedges cs3 st2 with
        | .error e => .error e
        | .ok (st3, _) => .ok st3

/-- `sum(ldegs.values())`: the number of nodes a per-layer degree dict asks
for. -/
def sumValues (ldegs : Degs) : Nat := (ldegs.map Prod.snd).sum

/-- The per-layer validation loop of `conf` (`models.py` lines 195-198):
every layer's node count must equal the previous one's. -/
def checkLayers : Option Nat → List Degs → Bool
  | _, [] => true
  | none, ldegs :: rest => checkLayers (some (sumValues ldegs)) rest
  | some n, ldegs :: rest =>
      if sumValues ldegs = n then checkLayers (some (sumValues ldegs)) rest else false

/-- The per-layer generation loop of `conf` (`models.py` lines 200-202). -/
def confLayers : List Degs → List (List Nat) → List (List Choice × List Choice) →
    Except Err (List RWState)
  | [], _, _ => .ok []
  | degs :: rest, stubs :: srest, (cs2, cs3) :: crest =>
      match single_layer_conf [] degs stubs cs2 cs3 with
      | .error e => .error e
      | .ok st =>
          match confLayers rest srest crest with
          | .error e => .error e
          | .ok l => .ok (st :: l)
  | _, _, _ => .error .outOfChoices

/-- `conf(degs, aspects, couplings)` (`models.py` lines 191-206).  For
`aspects = 0` the single degree dict is the head of `degsList`; for
`aspects = 1` the node-count validation runs before any layer is built. -/
def conf (aspects : Nat) (degsList : List Degs) (stubsList : List (List Nat))
    (csList : List (List Choice × List Choice)) : Except Err (List RWState) :=
  if aspects = 0 then
    match stubsList, csList with
    | stubs :: _, (cs2, cs3) :: _ =>
        match single_layer_conf [] (degsList.headD []) stubs cs2 cs3 with
        | .error e => .error e
        | .ok st => .ok [st]
    | _, _ => .error .outOfChoices
  else if aspects = 1 then
    if checkLayers none degsList then confLayers degsList stubsList csList
    else .error .layerMismatchError
  else .error .unsupportedAspectError

/-- The invariant linking the stub list and the target graph across both
elimination phases: every candidate-edge slot is a self-pairing, a known
multi-edge, or a committed edge; and a committed simple (non-multi) pair is
held by at most one slot. -/
def Inv (multi : List Pair) (st : RWState) : Prop :=
  st.net.Nodup ∧ (∀ p ∈ st.net, p.1 < p.2) ∧
  (∀ s < st.stubs.length / 2,
      (slotPair st.stubs s).1 = (slotPair st.stubs s).2 ∨
      slotPair st.stubs s ∈ multi ∨ slotPair st.stubs s ∈ st.net) ∧
  (∀ s < st.stubs.length / 2, ∀ t < st.stubs.length / 2,
      slotPair st.stubs s = slotPair st.stubs t →
      (slotPair st.stubs s).1 ≠ (slotPair st.stubs s).2 →
      slotPair st.stubs s ∉ multi → s = t)

/-- Implications of decidable propositions are decidable (the shape of the
invariant's uniqueness clause needs this instance explicitly). -/
instance decArrow (p q : Prop) [hp : Decidable p] [hq : Decidable q] :
    Decidable (p → q) :=
  match hp with
  | isTrue h =>
    match hq with
    | isTrue h2 => isTrue (fun _ => h2)
    | isFalse h2 => isFalse (fun f => h2 (f h))
  | isFalse h => isTrue (fun hx => absurd hx h)

/-- The invariant is decidable, so concrete states can be checked by
evaluation. -/
instance decInv (multi : List Pair) (st : RWState) : Decidable (Inv multi st) :=
  inferInstanceAs (Decidable (st.net.Nodup ∧ (∀ p ∈ st.net, p.1 < p.2) ∧
    (∀ s < st.stubs.length / 2,
        (slotPair st.stubs s).1 = (slotPair st.stubs s).2 ∨
        slotPair st.stubs s ∈ multi ∨ slotPair st.stubs s ∈ st.net) ∧
    (∀ s < st.stubs.length / 2, ∀ t < st.stubs.length / 2,
        slotPair st.stubs s = slotPair st.stubs t →
        (slotPair st.stubs s).1 ≠ (slotPair st.stubs s).2 →
        slotPair st.stubs s ∉ multi → s = t)))

/-- Number of slots `t < s` whose candidate pair is `p`. -/
def cntSlot (stubs : List Nat) (s : Nat) (p : Pair) : Nat :=
  (List.range s).countP (fun t => slotPair stubs t == p)

/-- Number of self slots `t < s`. -/
def cntSelfAll (stubs : List Nat) (s : Nat) : Nat :=
  (List.range s).countP (fun t => (slotPair stubs t).1 == (slotPair stubs t).2)

/-- Number of stub positions `i < 2s` holding `v`. -/
def posCnt (stubs : List Nat) (s : Nat) (v : Nat) : Nat :=
  (List.range (2 * s)).countP (fun i => nth stubs i == v)

/-- Total incidence of `v` over the self-edge registry. -/
def selfWeight (l : List (Nat × List Nat)) (v : Nat) : Nat :=
  (l.map (fun ns => if ns.1 = v then ns.2.length else 0)).sum

/-- Total number of recorded self-pairing occurrences. -/
def selfTotal (l : List (Nat × List Nat)) : Nat :=
  (l.map (fun ns => ns.2.length)).sum

/-- `Σ_{p ∈ multi} (|registry p| - 1) · inc v p`: the excess duplicate
incidences still owed to `v`. -/
def multiSum (eti : List (Pair × List Nat)) (multi : List Pair) (v : Nat) : Nat :=
  (multi.map (fun p => ((alGet eti p).length - 1) * inc v p)).sum

/-- `Σ_{p ∈ multi} (|registry p| - 1)`. -/
def multiSumAll (eti : List (Pair × List Nat)) (multi : List Pair) : Nat :=
  (multi.map (fun p => (alGet eti p).length - 1)).sum

/-- `net` is `k`-regular on the nodes `0, ..., n-1` and empty elsewhere. -/
def isRegular (net : Net) (n k : Nat) : Prop :=
  ∀ v, deg net v = if v < n then k else 0

/-- A simple undirected edge list: no duplicate edges, no self-loops. -/
def simpleNet (net : Net) : Prop := net.Nodup ∧ ∀ p ∈ net, p.1 < p.2

/-- On the empty degree sequence the generator succeeds and commits nothing,
whatever samples it is handed. -/
def emptyConfOk : Prop :=
  ∀ cs2 cs3 : List Choice, single_layer_conf [] [] [] cs2 cs3 = .ok ⟨[], []⟩

/-- Everything the initial pairing scan guarantees after processing the first
`s` slots, starting from the empty network and empty registries: the committed
edges are exactly the distinct pairs seen so far, the registries index the
slots faithfully, and the degree/edge-count accounting balances the stub
positions consumed. -/
structure P1Inv (stubs : List Nat) (s : Nat) (st : Phase1State) : Prop where
  netNodup : st.net.Nodup
  netMem : ∀ p : Pair, p ∈ st.net ↔ (p.1 < p.2 ∧ 1 ≤ cntSlot stubs s p)
  etiLen : ∀ p : Pair, (alGet st.edgetoindex p).length = cntSlot stubs s p
  etiMem : ∀ p : Pair, ∀ i ∈ alGet st.edgetoindex p,
      ∃ t, t < s ∧ i = 2 * t ∧ slotPair stubs t = p
  multiMem : ∀ p : Pair, p ∈ st.multiedges ↔ (p.1 < p.2 ∧ 2 ≤ cntSlot stubs s p)
  multiNodup : st.multiedges.Nodup
  selfMem : ∀ n : Nat, ∀ sis : List Nat, (n, sis) ∈ st.selfedges →
      ∀ i ∈ sis, ∃ t, t < s ∧ i = 2 * t ∧ slotPair stubs t = (n, n)
  selfW : ∀ v : Nat, selfWeight st.selfedges v = cntSlot stubs s (v, v)
  selfT : selfTotal st.selfedges = cntSelfAll stubs s
  degAcc : ∀ v : Nat, deg st.net v + 2 * cntSlot stubs s (v, v) +
      multiSum st.edgetoindex st.multiedges v = posCnt stubs s v
  lenAcc : st.net.length + selfTotal st.selfedges +
      multiSumAll st.edgetoindex st.multiedges = s

/-- The target-graph dict with its stored weights kept explicit (the rest of
the development collapses `net` to an edge set because the source only ever
assigns weight `1` or deletes a key; this embedding keeps the assigned value
so that statements about the weight itself can be settled). -/
def wGet (net : List (Pair × Nat)) (p : Pair) : Nat :=
  match net.find? (fun e => e.1 == p) with
  | some e => e.2
  | none => 0

/-- `net[p] = w` on the weighted dict, insertion-ordered. -/
def wSet (net : List (Pair × Nat)) (p : Pair) (w : Nat) : List (Pair × Nat) :=
  if net.any (fun e => e.1 == p) then
    net.map (fun e => if e.1 = p then (p, w) else e)
  else net ++ [(p, w)]

/-- The initial pairing loop's effect on the weighted target graph, exactly as
the source writes it: `net[node1,node2] = 1` for every distinct pair, whether
or not the edge is already present (`models.py` line 55). -/
def pairStepW (stubs : List Nat) (net : List (Pair × Nat)) (s : Nat) :
    List (Pair × Nat) :=
  let p := slotPair stubs s
  if p.1 = p.2 then net else wSet net p 1

/-- The same step as the specification words it: written with weight `1`, or
the existing weight is incremented if an edge is already present. -/
def pairStepSpecW (stubs : List Nat) (net : List (Pair × Nat)) (s : Nat) :
    List (Pair × Nat) :=
  let p := slotPair stubs s
  if p.1 = p.2 then net
  else if wGet net p = 0 then wSet net p 1 else wSet net p (wGet net p + 1)

/-- The pairing scan on the weighted graph (source behaviour). -/
def phase1WGo (stubs : List Nat) : Nat → List (Pair × Nat) → List (Pair × Nat)
  | 0, net => net
  | s + 1, net => pairStepW stubs (phase1WGo stubs s net) s

/-- The full pairing scan on the weighted graph (source behaviour). -/
def phase1W (stubs : List Nat) : List (Pair × Nat) :=
  phase1WGo stubs (stubs.length / 2) []

/-- The pairing scan as the specification describes it. -/
def phase1SpecWGo (stubs : List Nat) : Nat → List (Pair × Nat) → List (Pair × Nat)
  | 0, net => net
  | s + 1, net => pairStepSpecW stubs (phase1SpecWGo stubs s net) s

/-- The full pairing scan as the specification describes it. -/
def phase1SpecW (stubs : List Nat) : List (Pair × Nat) :=
  phase1SpecWGo stubs (stubs.length / 2) []

end Pymnet

namespace Pymnet

/-! ### Basic lemmas about the primitive operations -/

theorem sortPair_cases (a b : Nat) : sortPair a b = (a, b) ∨ sortPair a b = (b, a) := by
  unfold sortPair; split
  · exact Or.inl rfl
  · exact Or.inr rfl

theorem sortPair_fst_le_snd (a b : Nat) : (sortPair a b).1 ≤ (sortPair a b).2 := by
  unfold sortPair; split <;> simp <;> omega

theorem sortPair_lt {a b : Nat} (h : a ≠ b) : (sortPair a b).1 < (sortPair a b).2 := by
  unfold sortPair; split <;> simp <;> omega

theorem sortPair_idem (a b : Nat) :
    sortPair (sortPair a b).1 (sortPair a b).2 = sortPair a b := by
  unfold sortPair; split <;> simp <;> omega

theorem sortPair_eq_iff {a b c d : Nat} :
    sortPair a b = sortPair c d ↔ (a = c ∧ b = d) ∨ (a = d ∧ b = c) := by
  unfold sortPair
  split <;> split <;> simp [Prod.ext_iff] <;> omega

theorem sortPair_fst_mem (a b : Nat) : (sortPair a b).1 = a ∨ (sortPair a b).1 = b := by
  rcases sortPair_cases a b with h | h <;> rw [h] <;> simp

theorem sortPair_snd_mem (a b : Nat) : (sortPair a b).2 = a ∨ (sortPair a b).2 = b := by
  rcases sortPair_cases a b with h | h <;> rw [h] <;> simp

theorem inc_sortPair (v a b : Nat) :
    inc v (sortPair a b) = (if a = v then 1 else 0) + (if b = v then 1 else 0) := by
  rcases sortPair_cases a b with h | h <;> rw [inc, h] <;> simp <;> omega

theorem netGet_eq_one_iff {net : Net} {p : Pair} : netGet net p = 1 ↔ p ∈ net := by
  unfold netGet; split <;> simp_all

theorem netGet_eq_zero_iff {net : Net} {p : Pair} : netGet net p = 0 ↔ p ∉ net := by
  unfold netGet; split <;> simp_all

theorem mem_netSet1 {net : Net} {p q : Pair} : q ∈ netSet1 net p ↔ q = p ∨ q ∈ net := by
  unfold netSet1
  by_cases h : p ∈ net
  · rw [if_pos h]
    constructor
    · exact fun hq => Or.inr hq
    · rintro (rfl | hq)
      · exact h
      · exact hq
  · rw [if_neg h]; exact List.mem_cons

theorem nodup_netSet1 {net : Net} {p : Pair} (h : net.Nodup) : (netSet1 net p).Nodup := by
  unfold netSet1; split
  · exact h
  · exact List.Nodup.cons (by assumption) h

theorem sorted_netSet1 {net : Net} {p : Pair} (h : ∀ q ∈ net, q.1 < q.2) (hp : p.1 < p.2) :
    ∀ q ∈ netSet1 net p, q.1 < q.2 := by
  intro q hq
  rcases mem_netSet1.mp hq with rfl | hq
  · exact hp
  · exact h q hq

theorem length_netSet1_not_mem {net : Net} {p : Pair} (h : p ∉ net) :
    (netSet1 net p).length = net.length + 1 := by
  unfold netSet1; rw [if_neg h]; rfl

theorem pred_ite_eq_inc {p : Pair} (v : Nat) (hp : p.1 ≠ p.2) :
    (if (p.1 == v || p.2 == v) = true then 1 else 0) = inc v p := by
  unfold inc
  by_cases h1 : p.1 = v <;> by_cases h2 : p.2 = v <;> simp_all

theorem deg_netSet1_not_mem {net : Net} {p : Pair} (h : p ∉ net) (hp : p.1 ≠ p.2) (v : Nat) :
    deg (netSet1 net p) v = deg net v + inc v p := by
  unfold netSet1 deg; rw [if_neg h, List.countP_cons, pred_ite_eq_inc v hp]

theorem mem_netSet0 {net : Net} {p q : Pair} (h : net.Nodup) :
    q ∈ netSet0 net p ↔ q ≠ p ∧ q ∈ net := List.Nodup.mem_erase_iff h

theorem nodup_netSet0 {net : Net} {p : Pair} (h : net.Nodup) : (netSet0 net p).Nodup :=
  List.Nodup.erase p h

theorem sorted_netSet0 {net : Net} {p : Pair} (h : ∀ q ∈ net, q.1 < q.2) :
    ∀ q ∈ netSet0 net p, q.1 < q.2 := fun q hq => h q (List.mem_of_mem_erase hq)

theorem length_netSet0_mem {net : Net} {p : Pair} (h : p ∈ net) :
    (netSet0 net p).length + 1 = net.length := by
  unfold netSet0
  rw [List.length_erase_of_mem h]
  have : 1 ≤ net.length := List.length_pos.mpr (by rintro rfl; simp at h)
  omega

theorem deg_netSet0_mem {net : Net} {p : Pair} (hn : net.Nodup) (h : p ∈ net)
    (hp : p.1 ≠ p.2) (v : Nat) : deg (netSet0 net p) v + inc v p = deg net v := by
  unfold deg netSet0
  induction net with
  | nil => simp at h
  | cons q rest ih =>
    rcases List.mem_cons.mp h with rfl | h2
    · rw [List.erase_cons_head, List.countP_cons, pred_ite_eq_inc v hp]
    · have hq : q ≠ p := by
        rintro rfl; exact (List.nodup_cons.mp hn).1 h2
      rw [List.erase_cons_tail (by simp [hq]), List.countP_cons, List.countP_cons]
      have h3 := ih (List.nodup_cons.mp hn).2 h2
      omega

theorem netSet0_not_mem {net : Net} {p : Pair} (h : p ∉ net) : netSet0 net p = net :=
  List.erase_of_not_mem h

theorem one_le_deg {net : Net} {p : Pair} {v : Nat} (h : p ∈ net) (hv : p.1 = v ∨ p.2 = v) :
    1 ≤ deg net v := by
  unfold deg
  refine List.countP_pos.mpr ⟨p, h, ?_⟩
  rcases hv with hv | hv <;> simp [hv]

theorem nth_set (l : List Nat) (i j v : Nat) :
    nth (l.set i v) j = if i = j ∧ j < l.length then v else nth l j := by
  induction l generalizing i j with
  | nil => simp [nth]
  | cons a l ih =>
    cases i with
    | zero =>
      cases j with
      | zero => simp [nth]
      | succ j => simp [nth, List.getD_cons_succ]
    | succ i =>
      cases j with
      | zero => simp [nth]
      | succ j =>
        simp only [List.set_cons_succ, nth, List.getD_cons_succ, List.length_cons]
        rw [← nth, ← nth, ih i j]
        by_cases h : i = j ∧ j < l.length
        · rw [if_pos h, if_pos ⟨by omega, by omega⟩]
        · rw [if_neg h, if_neg (by omega)]

theorem length_stubsWrite (l : List Nat) (i : Nat) (p : Pair) :
    (stubsWrite l i p).length = l.length := by
  unfold stubsWrite; rw [List.length_set, List.length_set]

theorem nth_stubsWrite (l : List Nat) (i : Nat) (p : Pair) (j : Nat) :
    nth (stubsWrite l i p) j =
      if i + 1 = j ∧ j < l.length then p.2
      else if i = j ∧ j < l.length then p.1
      else nth l j := by
  unfold stubsWrite
  rw [nth_set, nth_set, List.length_set]

theorem slotPair_stubsWrite (l : List Nat) (x : Nat) (p : Pair) (s : Nat)
    (hb : 2 * x + 1 < l.length) :
    slotPair (stubsWrite l (2 * x) p) s =
      if s = x then sortPair p.1 p.2 else slotPair l s := by
  unfold slotPair
  rw [nth_stubsWrite, nth_stubsWrite]
  by_cases h : s = x
  · subst h
    rw [if_neg (by omega), if_pos ⟨rfl, by omega⟩, if_pos ⟨rfl, by omega⟩, if_pos rfl]
  · rw [if_neg (by omega), if_neg (by omega), if_neg (by omega), if_neg (by omega),
      if_neg h]

theorem slot_bound_iff {s n : Nat} : 2 * s + 1 < n ↔ s < n / 2 := by omega

theorem alGet_alApp {α : Type} [DecidableEq α] (l : List (α × List Nat)) (k k' : α)
    (x : Nat) :
    alGet (alApp l k x) k' = if k' = k then alGet l k' ++ [x] else alGet l k' := by
  induction l with
  | nil =>
    by_cases h : k' = k
    · subst h; simp [alApp, alGet]
    · simp [alApp, alGet, h, Ne.symm h]
  | cons e rest ih =>
    obtain ⟨ka, va⟩ := e
    by_cases h1 : ka = k <;> by_cases h2 : ka = k'
    · subst h1; subst h2; simp [alApp, alGet]
    · subst h1; simp [alApp, alGet, h2, Ne.symm h2]
    · subst h2; simp [alApp, alGet, h1, ih]
    · simp [alApp, alGet, h1, h2, Ne.symm h2, ih]

theorem mem_alApp {α : Type} [DecidableEq α] {l : List (α × List Nat)} {k : α} {x : Nat}
    {e : α × List Nat} (he : e ∈ alApp l k x) :
    e ∈ l ∨ (∃ w, e = (k, w ++ [x]) ∧ (k, w) ∈ l) ∨ e = (k, [x]) := by
  induction l with
  | nil =>
    simp only [alApp, List.mem_singleton] at he
    exact Or.inr (Or.inr he)
  | cons f rest ih =>
    obtain ⟨ka, va⟩ := f
    by_cases h1 : ka = k
    · subst h1
      have he2 : e ∈ (ka, va ++ [x]) :: rest := by simpa [alApp] using he
      rcases List.mem_cons.mp he2 with h | h
      · exact Or.inr (Or.inl ⟨va, h, List.mem_cons_self _ _⟩)
      · exact Or.inl (List.mem_cons_of_mem _ h)
    · have he2 : e ∈ (ka, va) :: alApp rest k x := by simpa [alApp, h1] using he
      rcases List.mem_cons.mp he2 with h | h
      · exact Or.inl (by rw [h]; exact List.mem_cons_self _ _)
      · rcases ih h with h2 | ⟨w, hw, hmem⟩ | h2
        · exact Or.inl (List.mem_cons_of_mem _ h2)
        · exact Or.inr (Or.inl ⟨w, hw, List.mem_cons_of_mem _ hmem⟩)
        · exact Or.inr (Or.inr h2)

theorem alApp_cons_self {α : Type} [DecidableEq α] (k : α) (va : List Nat)
    (rest : List (α × List Nat)) (x : Nat) :
    alApp ((k, va) :: rest) k x = (k, va ++ [x]) :: rest := by
  simp [alApp]

theorem alApp_cons_ne {α : Type} [DecidableEq α] {ka k : α} (h : ka ≠ k) (va : List Nat)
    (rest : List (α × List Nat)) (x : Nat) :
    alApp ((ka, va) :: rest) k x = (ka, va) :: alApp rest k x := by
  simp [alApp, h]

theorem selfWeight_cons (ka : Nat) (va : List Nat) (rest : List (Nat × List Nat)) (v : Nat) :
    selfWeight ((ka, va) :: rest) v =
      (if ka = v then va.length else 0) + selfWeight rest v := by
  simp [selfWeight]

theorem selfWeight_alApp (l : List (Nat × List Nat)) (k v : Nat) (x : Nat) :
    selfWeight (alApp l k x) v = selfWeight l v + (if k = v then 1 else 0) := by
  induction l with
  | nil => by_cases h : k = v <;> simp [alApp, selfWeight, h]
  | cons f rest ih =>
    obtain ⟨ka, va⟩ := f
    by_cases h1 : ka = k
    · subst h1
      rw [alApp_cons_self, selfWeight_cons, selfWeight_cons]
      by_cases h2 : ka = v <;> simp [h2] <;> omega
    · rw [alApp_cons_ne h1, selfWeight_cons, selfWeight_cons, ih]
      omega

theorem selfTotal_cons (ka : Nat) (va : List Nat) (rest : List (Nat × List Nat)) :
    selfTotal ((ka, va) :: rest) = va.length + selfTotal rest := by
  simp [selfTotal]

theorem selfTotal_alApp (l : List (Nat × List Nat)) (k : Nat) (x : Nat) :
    selfTotal (alApp l k x) = selfTotal l + 1 := by
  induction l with
  | nil => simp [alApp, selfTotal]
  | cons f rest ih =>
    obtain ⟨ka, va⟩ := f
    by_cases h1 : ka = k
    · subst h1
      rw [alApp_cons_self, selfTotal_cons, selfTotal_cons]
      simp
      omega
    · rw [alApp_cons_ne h1, selfTotal_cons, selfTotal_cons, ih]
      omega

theorem mem_addPair {l : List Pair} {p q : Pair} : q ∈ addPair l p ↔ q ∈ l ∨ q = p := by
  unfold addPair
  by_cases h : p ∈ l
  · rw [if_pos h]
    constructor
    · exact fun hq => Or.inl hq
    · rintro (hq | rfl)
      · exact hq
      · exact h
  · rw [if_neg h]; simp [List.mem_append]

theorem nodup_addPair {l : List Pair} {p : Pair} (h : l.Nodup) : (addPair l p).Nodup := by
  unfold addPair
  by_cases hp : p ∈ l
  · rw [if_pos hp]; exact h
  · rw [if_neg hp]
    refine List.nodup_append.mpr ⟨h, List.nodup_singleton p, ?_⟩
    intro a ha hb
    rw [List.mem_singleton] at hb
    subst hb
    exact hp ha

theorem countP_range_succ (f : Nat → Bool) (n : Nat) :
    (List.range (n + 1)).countP f = (List.range n).countP f + if f n then 1 else 0 := by
  rw [List.range_succ, List.countP_append]
  simp [List.countP_cons]

theorem two_le_countP_range {f : Nat → Bool} {s t n : Nat} (hs : s < n) (ht : t < n)
    (hne : s ≠ t) (hfs : f s) (hft : f t) : 2 ≤ (List.range n).countP f := by
  induction n with
  | zero => omega
  | succ n ih =>
    rw [countP_range_succ]
    by_cases hsn : s = n
    · subst hsn
      have ht' : t < s := by omega
      have h1 : 0 < (List.range s).countP f :=
        List.countP_pos.mpr ⟨t, List.mem_range.mpr ht', hft⟩
      rw [if_pos hfs]; omega
    · by_cases htn : t = n
      · subst htn
        have hs' : s < t := by omega
        have h1 : 0 < (List.range t).countP f :=
          List.countP_pos.mpr ⟨s, List.mem_range.mpr hs', hfs⟩
        rw [if_pos hft]; omega
      · have := ih (by omega) (by omega)
        omega

end Pymnet

namespace Pymnet

/-! ### Counting lemmas for the initial pairing -/

theorem netSet1_mem {net : Net} {p : Pair} (h : p ∈ net) : netSet1 net p = net := by
  unfold netSet1; rw [if_pos h]

theorem cntSlot_zero (stubs : List Nat) (p : Pair) : cntSlot stubs 0 p = 0 := by
  simp [cntSlot]

theorem cntSlot_succ (stubs : List Nat) (s : Nat) (p : Pair) :
    cntSlot stubs (s + 1) p =
      cntSlot stubs s p + (if slotPair stubs s = p then 1 else 0) := by
  unfold cntSlot
  rw [countP_range_succ]
  simp [beq_iff_eq]

theorem cntSelfAll_zero (stubs : List Nat) : cntSelfAll stubs 0 = 0 := by
  simp [cntSelfAll]

theorem cntSelfAll_succ (stubs : List Nat) (s : Nat) :
    cntSelfAll stubs (s + 1) =
      cntSelfAll stubs s +
        (if (slotPair stubs s).1 = (slotPair stubs s).2 then 1 else 0) := by
  unfold cntSelfAll
  rw [countP_range_succ]
  simp [beq_iff_eq]

theorem posCnt_zero (stubs : List Nat) (v : Nat) : posCnt stubs 0 v = 0 := by
  simp [posCnt]

theorem posCnt_succ (stubs : List Nat) (s v : Nat) :
    posCnt stubs (s + 1) v = posCnt stubs s v + inc v (slotPair stubs s) := by
  unfold posCnt
  have h2 : 2 * (s + 1) = (2 * s + 1) + 1 := by omega
  rw [h2, countP_range_succ, countP_range_succ]
  unfold slotPair
  rw [inc_sortPair]
  simp [beq_iff_eq]
  omega

theorem cntSlot_pos_exists {stubs : List Nat} {s : Nat} {p : Pair}
    (h : 1 ≤ cntSlot stubs s p) : ∃ t, t < s ∧ slotPair stubs t = p := by
  unfold cntSlot at h
  have h2 : 0 < (List.range s).countP (fun t => slotPair stubs t == p) := by omega
  obtain ⟨t, ht, hp⟩ := List.countP_pos.mp h2
  exact ⟨t, List.mem_range.mp ht, by simpa [beq_iff_eq] using hp⟩

theorem two_le_cntSlot {stubs : List Nat} {s t1 t2 : Nat} {p : Pair}
    (h1 : t1 < s) (h2 : t2 < s) (hne : t1 ≠ t2) (hp1 : slotPair stubs t1 = p)
    (hp2 : slotPair stubs t2 = p) : 2 ≤ cntSlot stubs s p := by
  unfold cntSlot
  exact two_le_countP_range h1 h2 hne (by simp [hp1]) (by simp [hp2])

theorem multiSum_nil (eti : List (Pair × List Nat)) (v : Nat) : multiSum eti [] v = 0 := by
  simp [multiSum]

theorem multiSum_cons (eti : List (Pair × List Nat)) (q : Pair) (rest : List Pair)
    (v : Nat) :
    multiSum eti (q :: rest) v =
      ((alGet eti q).length - 1) * inc v q + multiSum eti rest v := by
  simp [multiSum]

theorem multiSum_append_single (eti : List (Pair × List Nat)) (l : List Pair) (p : Pair)
    (v : Nat) :
    multiSum eti (l ++ [p]) v = multiSum eti l v + ((alGet eti p).length - 1) * inc v p := by
  simp [multiSum]

theorem multiSum_alApp_not_mem {eti : List (Pair × List Nat)} {multi : List Pair}
    {p0 : Pair} {i v : Nat} (h : p0 ∉ multi) :
    multiSum (alApp eti p0 i) multi v = multiSum eti multi v := by
  induction multi with
  | nil => simp [multiSum]
  | cons q rest ih =>
    have hq : q ≠ p0 := by rintro rfl; exact h (List.mem_cons_self _ _)
    rw [multiSum_cons, multiSum_cons, alGet_alApp, if_neg hq,
      ih (fun hm => h (List.mem_cons_of_mem _ hm))]

theorem multiSum_alApp_mem {eti : List (Pair × List Nat)} {multi : List Pair}
    {p0 : Pair} {i v : Nat} (hm : multi.Nodup) (hp : p0 ∈ multi)
    (hlen : 1 ≤ (alGet eti p0).length) :
    multiSum (alApp eti p0 i) multi v = multiSum eti multi v + inc v p0 := by
  induction multi with
  | nil => simp at hp
  | cons q rest ih =>
    rcases List.mem_cons.mp hp with rfl | hp2
    · rw [multiSum_cons, multiSum_cons, alGet_alApp, if_pos rfl,
        multiSum_alApp_not_mem (List.nodup_cons.mp hm).1]
      have h3 : ((alGet eti p0).length + 1 - 1) * inc v p0
          = ((alGet eti p0).length - 1) * inc v p0 + inc v p0 := by
        have h4 : (alGet eti p0).length + 1 - 1 = ((alGet eti p0).length - 1) + 1 := by
          omega
        rw [h4, Nat.succ_mul]
      rw [List.length_append, List.length_singleton, h3]
      omega
    · have hq : q ≠ p0 := by
        rintro rfl; exact (List.nodup_cons.mp hm).1 hp2
      rw [multiSum_cons, multiSum_cons, alGet_alApp, if_neg hq,
        ih (List.nodup_cons.mp hm).2 hp2]
      omega

theorem multiSumAll_nil (eti : List (Pair × List Nat)) : multiSumAll eti [] = 0 := by
  simp [multiSumAll]

theorem multiSumAll_cons (eti : List (Pair × List Nat)) (q : Pair) (rest : List Pair) :
    multiSumAll eti (q :: rest) =
      ((alGet eti q).length - 1) + multiSumAll eti rest := by
  simp [multiSumAll]

theorem multiSumAll_append_single (eti : List (Pair × List Nat)) (l : List Pair)
    (p : Pair) :
    multiSumAll eti (l ++ [p]) = multiSumAll eti l + ((alGet eti p).length - 1) := by
  simp [multiSumAll]

theorem multiSumAll_alApp_not_mem {eti : List (Pair × List Nat)} {multi : List Pair}
    {p0 : Pair} {i : Nat} (h : p0 ∉ multi) :
    multiSumAll (alApp eti p0 i) multi = multiSumAll eti multi := by
  induction multi with
  | nil => simp [multiSumAll]
  | cons q rest ih =>
    have hq : q ≠ p0 := by rintro rfl; exact h (List.mem_cons_self _ _)
    rw [multiSumAll_cons, multiSumAll_cons, alGet_alApp, if_neg hq,
      ih (fun hm => h (List.mem_cons_of_mem _ hm))]

theorem multiSumAll_alApp_mem {eti : List (Pair × List Nat)} {multi : List Pair}
    {p0 : Pair} {i : Nat} (hm : multi.Nodup) (hp : p0 ∈ multi)
    (hlen : 1 ≤ (alGet eti p0).length) :
    multiSumAll (alApp eti p0 i) multi = multiSumAll eti multi + 1 := by
  induction multi with
  | nil => simp at hp
  | cons q rest ih =>
    rcases List.mem_cons.mp hp with rfl | hp2
    · rw [multiSumAll_cons, multiSumAll_cons, alGet_alApp, if_pos rfl,
        multiSumAll_alApp_not_mem (List.nodup_cons.mp hm).1]
      rw [List.length_append, List.length_singleton]
      omega
    · have hq : q ≠ p0 := by
        rintro rfl; exact (List.nodup_cons.mp hm).1 hp2
      rw [multiSumAll_cons, multiSumAll_cons, alGet_alApp, if_neg hq,
        ih (List.nodup_cons.mp hm).2 hp2]
      omega

end Pymnet

namespace Pymnet

/-! ### The initial-pairing invariant -/

theorem pairStep_self {stubs : List Nat} {st : Phase1State} {s : Nat}
    (hself : (slotPair stubs s).1 = (slotPair stubs s).2)
    (hdup : netGet st.net (slotPair stubs s) = 0) :
    pairStep stubs st s = { st with
      edgetoindex := alApp st.edgetoindex (slotPair stubs s) (2 * s),
      selfedges := alApp st.selfedges (slotPair stubs s).1 (2 * s) } := by
  unfold pairStep
  simp [hself, hdup]

theorem pairStep_new {stubs : List Nat} {st : Phase1State} {s : Nat}
    (hdist : ¬ (slotPair stubs s).1 = (slotPair stubs s).2)
    (hdup : netGet st.net (slotPair stubs s) = 0) :
    pairStep stubs st s = { st with
      edgetoindex := alApp st.edgetoindex (slotPair stubs s) (2 * s),
      net := netSet1 st.net (slotPair stubs s) } := by
  unfold pairStep
  simp [hdist, hdup]

theorem pairStep_dup {stubs : List Nat} {st : Phase1State} {s : Nat}
    (hdist : ¬ (slotPair stubs s).1 = (slotPair stubs s).2)
    (hdup : ¬ netGet st.net (slotPair stubs s) = 0) :
    pairStep stubs st s = { st with
      edgetoindex := alApp st.edgetoindex (slotPair stubs s) (2 * s),
      multiedges := addPair st.multiedges (slotPair stubs s),
      net := netSet1 st.net (slotPair stubs s) } := by
  unfold pairStep
  simp [hdist, hdup]

end Pymnet

namespace Pymnet

theorem slotPair_fst_le_snd (stubs : List Nat) (s : Nat) :
    (slotPair stubs s).1 ≤ (slotPair stubs s).2 := by
  unfold slotPair; exact sortPair_fst_le_snd _ _

theorem netGet_ne_zero_iff {net : Net} {p : Pair} : ¬ netGet net p = 0 ↔ p ∈ net := by
  unfold netGet; split <;> simp_all

theorem addPair_of_mem {l : List Pair} {p : Pair} (h : p ∈ l) : addPair l p = l := by
  unfold addPair; rw [if_pos h]

theorem addPair_of_not_mem {l : List Pair} {p : Pair} (h : p ∉ l) :
    addPair l p = l ++ [p] := by
  unfold addPair; rw [if_neg h]

theorem p1inv_step {stubs : List Nat} {s : Nat} {st : Phase1State}
    (H : P1Inv stubs s st) : P1Inv stubs (s + 1) (pairStep stubs st s) := by
  by_cases hself : (slotPair stubs s).1 = (slotPair stubs s).2
  · -- a self pairing: recorded, never committed
    have hdup0 : netGet st.net (slotPair stubs s) = 0 := by
      rw [netGet_eq_zero_iff]
      intro hmem
      have h1 := ((H.netMem _).mp hmem).1
      omega
    have hp0multi : slotPair stubs s ∉ st.multiedges := by
      intro hm
      have h1 := ((H.multiMem _).mp hm).1
      omega
    rw [pairStep_self hself hdup0]
    refine ⟨?_, ?_, ?_, ?_, ?_, ?_, ?_, ?_, ?_, ?_, ?_⟩ <;> dsimp only
    · exact H.netNodup
    · intro p
      rw [cntSlot_succ]
      by_cases hp : slotPair stubs s = p
      · constructor
        · intro hmem
          exact absurd ((H.netMem p).mp hmem).1 (by rw [← hp]; omega)
        · rintro ⟨h1, h2⟩
          exact absurd h1 (by rw [← hp]; omega)
      · rw [if_neg hp]
        simpa using H.netMem p
    · intro p
      rw [alGet_alApp, cntSlot_succ]
      by_cases hp : p = slotPair stubs s
      · rw [if_pos hp, if_pos hp.symm, List.length_append, List.length_singleton,
          H.etiLen p]
      · rw [if_neg hp, if_neg (fun h => hp h.symm), H.etiLen p, Nat.add_zero]
    · intro p i hi
      rw [alGet_alApp] at hi
      by_cases hp : p = slotPair stubs s
      · rw [if_pos hp] at hi
        rcases List.mem_append.mp hi with h | h
        · obtain ⟨t, ht, hit, hsp⟩ := H.etiMem p i h
          exact ⟨t, by omega, hit, hsp⟩
        · rw [List.mem_singleton] at h
          exact ⟨s, by omega, h, hp.symm⟩
      · rw [if_neg hp] at hi
        obtain ⟨t, ht, hit, hsp⟩ := H.etiMem p i hi
        exact ⟨t, by omega, hit, hsp⟩
    · intro p
      rw [cntSlot_succ]
      by_cases hp : slotPair stubs s = p
      · constructor
        · intro hm
          exact absurd ((H.multiMem p).mp hm).1 (by rw [← hp]; omega)
        · rintro ⟨h1, h2⟩
          exact absurd h1 (by rw [← hp]; omega)
      · rw [if_neg hp]
        simpa using H.multiMem p
    · exact H.multiNodup
    · intro n sis hmem i hi
      rcases mem_alApp hmem with h | ⟨w, hw, hwm⟩ | h
      · obtain ⟨t, ht, hit, hsp⟩ := H.selfMem n sis h i hi
        exact ⟨t, by omega, hit, hsp⟩
      · rw [Prod.ext_iff] at hw
        obtain ⟨hn, hsis⟩ := hw
        dsimp at hn hsis
        subst hn
        rw [hsis] at hi
        rcases List.mem_append.mp hi with h2 | h2
        · obtain ⟨t, ht, hit, hsp⟩ := H.selfMem _ w hwm i h2
          exact ⟨t, by omega, hit, hsp⟩
        · rw [List.mem_singleton] at h2
          refine ⟨s, by omega, h2, ?_⟩
          rw [Prod.ext_iff]
          exact ⟨rfl, hself.symm⟩
      · rw [Prod.ext_iff] at h
        obtain ⟨hn, hsis⟩ := h
        dsimp at hn hsis
        subst hn
        rw [hsis] at hi
        rw [List.mem_singleton] at hi
        refine ⟨s, by omega, hi, ?_⟩
        rw [Prod.ext_iff]
        exact ⟨rfl, hself.symm⟩
    · intro v
      rw [selfWeight_alApp, cntSlot_succ, H.selfW v]
      by_cases hv : (slotPair stubs s).1 = v
      · have hpv : slotPair stubs s = (v, v) := by
          rw [Prod.ext_iff]
          exact ⟨hv, by rw [← hself]; exact hv⟩
        rw [if_pos hv, if_pos hpv]
      · have hpv : ¬ slotPair stubs s = (v, v) := by
          intro h
          rw [Prod.ext_iff] at h
          exact hv h.1
        rw [if_neg hv, if_neg hpv]
    · rw [selfTotal_alApp, cntSelfAll_succ, H.selfT, if_pos hself]
    · intro v
      rw [cntSlot_succ, posCnt_succ, multiSum_alApp_not_mem hp0multi]
      have hacc := H.degAcc v
      by_cases hv : (slotPair stubs s).1 = v
      · have hv2 : (slotPair stubs s).2 = v := by rw [← hself]; exact hv
        have hpv : slotPair stubs s = (v, v) := by
          rw [Prod.ext_iff]; exact ⟨hv, hv2⟩
        have hinc : inc v (slotPair stubs s) = 2 := by
          unfold inc; rw [if_pos hv, if_pos hv2]
        rw [if_pos hpv, hinc]
        omega
      · have hv2 : ¬ (slotPair stubs s).2 = v := by rw [← hself]; exact hv
        have hpv : ¬ slotPair stubs s = (v, v) := by
          intro h; rw [Prod.ext_iff] at h; exact hv h.1
        have hinc : inc v (slotPair stubs s) = 0 := by
          unfold inc; rw [if_neg hv, if_neg hv2]
        rw [if_neg hpv, hinc]
        omega
    · rw [selfTotal_alApp, multiSumAll_alApp_not_mem hp0multi]
      have hacc := H.lenAcc
      omega
  · have hlt : (slotPair stubs s).1 < (slotPair stubs s).2 :=
      lt_of_le_of_ne (slotPair_fst_le_snd stubs s) hself
    have hpv : ∀ v : Nat, ¬ slotPair stubs s = (v, v) := by
      intro v h
      rw [Prod.ext_iff] at h
      obtain ⟨h1, h2⟩ := h
      omega
    by_cases hdup : netGet st.net (slotPair stubs s) = 0
    · -- first occurrence of a distinct pair: committed to the net
      have hmem0 : slotPair stubs s ∉ st.net := netGet_eq_zero_iff.mp hdup
      have hcnt0 : cntSlot stubs s (slotPair stubs s) = 0 := by
        have h1 : ¬ 1 ≤ cntSlot stubs s (slotPair stubs s) := fun hc =>
          hmem0 ((H.netMem _).mpr ⟨hlt, hc⟩)
        omega
      have hp0multi : slotPair stubs s ∉ st.multiedges := by
        intro hm
        have h2 := ((H.multiMem _).mp hm).2
        omega
      rw [pairStep_new hself hdup]
      refine ⟨?_, ?_, ?_, ?_, ?_, ?_, ?_, ?_, ?_, ?_, ?_⟩ <;> dsimp only
      · exact nodup_netSet1 H.netNodup
      · intro p
        rw [mem_netSet1, cntSlot_succ]
        by_cases hp : slotPair stubs s = p
        · subst hp
          rw [if_pos rfl]
          constructor
          · intro _; exact ⟨hlt, by omega⟩
          · intro _; exact Or.inl rfl
        · rw [if_neg hp]
          constructor
          · rintro (rfl | hm)
            · exact absurd rfl hp
            · have h2 := (H.netMem p).mp hm
              exact ⟨h2.1, by omega⟩
          · rintro ⟨h1, h2⟩
            exact Or.inr ((H.netMem p).mpr ⟨h1, by omega⟩)
      · intro p
        rw [alGet_alApp, cntSlot_succ]
        by_cases hp : p = slotPair stubs s
        · rw [if_pos hp, if_pos hp.symm, List.length_append, List.length_singleton,
            H.etiLen p]
        · rw [if_neg hp, if_neg (fun h => hp h.symm), H.etiLen p, Nat.add_zero]
      · intro p i hi
        rw [alGet_alApp] at hi
        by_cases hp : p = slotPair stubs s
        · rw [if_pos hp] at hi
          rcases List.mem_append.mp hi with h | h
          · obtain ⟨t, ht, hit, hsp⟩ := H.etiMem p i h
            exact ⟨t, by omega, hit, hsp⟩
          · rw [List.mem_singleton] at h
            exact ⟨s, by omega, h, hp.symm⟩
        · rw [if_neg hp] at hi
          obtain ⟨t, ht, hit, hsp⟩ := H.etiMem p i hi
          exact ⟨t, by omega, hit, hsp⟩
      · intro p
        rw [cntSlot_succ]
        by_cases hp : slotPair stubs s = p
        · subst hp
          rw [if_pos rfl]
          constructor
          · intro hm
            exact absurd hm hp0multi
          · rintro ⟨h1, h2⟩
            omega
        · rw [if_neg hp]
          simpa using H.multiMem p
      · exact H.multiNodup
      · intro n sis hmem i hi
        obtain ⟨t, ht, hit, hsp⟩ := H.selfMem n sis hmem i hi
        exact ⟨t, by omega, hit, hsp⟩
      · intro v
        rw [cntSlot_succ, if_neg (hpv v), Nat.add_zero]
        exact H.selfW v
      · rw [cntSelfAll_succ, if_neg hself, Nat.add_zero]
        exact H.selfT
      · intro v
        rw [deg_netSet1_not_mem hmem0 hself, cntSlot_succ, posCnt_succ,
          multiSum_alApp_not_mem hp0multi, if_neg (hpv v)]
        have hacc := H.degAcc v
        omega
      · rw [length_netSet1_not_mem hmem0, multiSumAll_alApp_not_mem hp0multi]
        have hacc := H.lenAcc
        omega
    · -- repeated occurrence of a committed pair: flagged as a multi-edge
      have hmem1 : slotPair stubs s ∈ st.net := netGet_ne_zero_iff.mp hdup
      have hcnt1 : 1 ≤ cntSlot stubs s (slotPair stubs s) :=
        ((H.netMem _).mp hmem1).2
      rw [pairStep_dup hself hdup]
      refine ⟨?_, ?_, ?_, ?_, ?_, ?_, ?_, ?_, ?_, ?_, ?_⟩ <;> dsimp only
      · exact nodup_netSet1 H.netNodup
      · intro p
        rw [netSet1_mem hmem1, cntSlot_succ]
        by_cases hp : slotPair stubs s = p
        · subst hp
          rw [if_pos rfl]
          constructor
          · intro _; exact ⟨hlt, by omega⟩
          · intro _; exact hmem1
        · rw [if_neg hp, Nat.add_zero]
          exact H.netMem p
      · intro p
        rw [alGet_alApp, cntSlot_succ]
        by_cases hp : p = slotPair stubs s
        · rw [if_pos hp, if_pos hp.symm, List.length_append, List.length_singleton,
            H.etiLen p]
        · rw [if_neg hp, if_neg (fun h => hp h.symm), H.etiLen p, Nat.add_zero]
      · intro p i hi
        rw [alGet_alApp] at hi
        by_cases hp : p = slotPair stubs s
        · rw [if_pos hp] at hi
          rcases List.mem_append.mp hi with h | h
          · obtain ⟨t, ht, hit, hsp⟩ := H.etiMem p i h
            exact ⟨t, by omega, hit, hsp⟩
          · rw [List.mem_singleton] at h
            exact ⟨s, by omega, h, hp.symm⟩
        · rw [if_neg hp] at hi
          obtain ⟨t, ht, hit, hsp⟩ := H.etiMem p i hi
          exact ⟨t, by omega, hit, hsp⟩
      · intro p
        rw [mem_addPair, cntSlot_succ]
        by_cases hp : slotPair stubs s = p
        · subst hp
          rw [if_pos rfl]
          constructor
          · intro _; exact ⟨hlt, by omega⟩
          · intro _; exact Or.inr rfl
        · rw [if_neg hp, Nat.add_zero]
          constructor
          · rintro (hm | rfl)
            · exact (H.multiMem p).mp hm
            · exact absurd rfl hp
          · intro h2
            exact Or.inl ((H.multiMem p).mpr h2)
      · exact nodup_addPair H.multiNodup
      · intro n sis hmem i hi
        obtain ⟨t, ht, hit, hsp⟩ := H.selfMem n sis hmem i hi
        exact ⟨t, by omega, hit, hsp⟩
      · intro v
        rw [cntSlot_succ, if_neg (hpv v), Nat.add_zero]
        exact H.selfW v
      · rw [cntSelfAll_succ, if_neg hself, Nat.add_zero]
        exact H.selfT
      · intro v
        rw [netSet1_mem hmem1, cntSlot_succ, posCnt_succ, if_neg (hpv v)]
        have hacc := H.degAcc v
        by_cases hp0m : slotPair stubs s ∈ st.multiedges
        · rw [addPair_of_mem hp0m,
            multiSum_alApp_mem H.multiNodup hp0m (by rw [H.etiLen]; omega)]
          omega
        · have hcnteq : cntSlot stubs s (slotPair stubs s) = 1 := by
            have h2 : ¬ 2 ≤ cntSlot stubs s (slotPair stubs s) := fun hc =>
              hp0m ((H.multiMem _).mpr ⟨hlt, hc⟩)
            omega
          rw [addPair_of_not_mem hp0m, multiSum_append_single,
            multiSum_alApp_not_mem hp0m, alGet_alApp, if_pos rfl,
            List.length_append, List.length_singleton, H.etiLen, hcnteq]
          omega
      · rw [netSet1_mem hmem1]
        have hacc := H.lenAcc
        by_cases hp0m : slotPair stubs s ∈ st.multiedges
        · rw [addPair_of_mem hp0m,
            multiSumAll_alApp_mem H.multiNodup hp0m (by rw [H.etiLen]; omega)]
          omega
        · have hcnteq : cntSlot stubs s (slotPair stubs s) = 1 := by
            have h2 : ¬ 2 ≤ cntSlot stubs s (slotPair stubs s) := fun hc =>
              hp0m ((H.multiMem _).mpr ⟨hlt, hc⟩)
            omega
          rw [addPair_of_not_mem hp0m, multiSumAll_append_single,
            multiSumAll_alApp_not_mem hp0m, alGet_alApp, if_pos rfl,
            List.length_append, List.length_singleton, H.etiLen, hcnteq]
          omega

end Pymnet

namespace Pymnet

theorem p1inv_zero (stubs : List Nat) : P1Inv stubs 0 ⟨[], [], [], []⟩ := by
  refine ⟨?_, ?_, ?_, ?_, ?_, ?_, ?_, ?_, ?_, ?_, ?_⟩
  · exact List.nodup_nil
  · intro p; simp [cntSlot_zero]
  · intro p; simp [alGet, cntSlot_zero]
  · intro p i hi; simp [alGet] at hi
  · intro p; simp [cntSlot_zero]
  · exact List.nodup_nil
  · intro n sis hmem; simp at hmem
  · intro v; simp [selfWeight, cntSlot_zero]
  · simp [selfTotal, cntSelfAll_zero]
  · intro v; simp [deg, multiSum, cntSlot_zero, posCnt_zero]
  · simp [selfTotal, multiSumAll]

theorem p1inv_go (stubs : List Nat) (s : Nat) :
    P1Inv stubs s (phase1Go stubs s ⟨[], [], [], []⟩) := by
  induction s with
  | zero => exact p1inv_zero stubs
  | succ s ih => exact p1inv_step ih

theorem p1inv_phase1 (stubs : List Nat) :
    P1Inv stubs (stubs.length / 2) (phase1 [] stubs) := p1inv_go stubs _

theorem one_le_cntSlot {stubs : List Nat} {s t : Nat} {p : Pair} (ht : t < s)
    (hp : slotPair stubs t = p) : 1 ≤ cntSlot stubs s p := by
  unfold cntSlot
  have hb : (fun u => slotPair stubs u == p) t = true := by simp [hp]
  have h2 : 0 < (List.range s).countP (fun u => slotPair stubs u == p) :=
    List.countP_pos.mpr ⟨t, List.mem_range.mpr ht, hb⟩
  omega

theorem sortPair_self_iff {a b : Nat} :
    (sortPair a b).1 = (sortPair a b).2 ↔ a = b := by
  unfold sortPair; split <;> simp <;> omega

/-- The state handed to the elimination phases satisfies the slot/edge
invariant. -/
theorem inv_of_phase1 (stubs : List Nat) :
    Inv (phase1 [] stubs).multiedges ⟨(phase1 [] stubs).net, stubs⟩ := by
  have H := p1inv_phase1 stubs
  refine ⟨H.netNodup, ?_, ?_, ?_⟩
  · intro p hp; exact ((H.netMem p).mp hp).1
  · intro s hs
    by_cases hself : (slotPair stubs s).1 = (slotPair stubs s).2
    · exact Or.inl hself
    · refine Or.inr (Or.inr ((H.netMem _).mpr ⟨?_, one_le_cntSlot hs rfl⟩))
      exact lt_of_le_of_ne (slotPair_fst_le_snd stubs s) hself
  · intro s hs t ht heq hdist hnm
    by_contra hne
    exact hnm ((H.multiMem _).mpr
      ⟨lt_of_le_of_ne (slotPair_fst_le_snd stubs s) hdist,
       two_le_cntSlot hs ht hne rfl heq.symm⟩)

end Pymnet

namespace Pymnet

/-! ### The self-loop eliminator: one accepted rewire -/

theorem selfRewire_spec {multi : List Pair} {node si : Nat} {ch : Choice}
    {st st' : RWState} (hInv : Inv multi st) (hsiA : si % 2 = 0)
    (hsiB : si + 1 < st.stubs.length)
    (hok : selfRewire multi node si ch st = .ok st') :
    Inv multi st' ∧ st'.stubs.length = st.stubs.length ∧
      st'.net.length = st.net.length + 1 ∧
      (∀ v, deg st'.net v = deg st.net v + 2 * (if v = node then 1 else 0)) ∧
      (∀ q ∈ multi, q ∈ st.net → q ∈ st'.net) := by
  obtain ⟨hnd, hsort, hK, hU⟩ := hInv
  simp only [selfRewire] at hok
  set a := nth st.stubs (2 * ch.1) with ha
  set b := nth st.stubs (2 * ch.1 + 1) with hb
  set d := nth st.stubs (2 * ch.2) with hd
  set e0 := nth st.stubs (2 * ch.2 + 1) with he0
  set q1 := sortPair a b with hq1
  set q2 := sortPair d e0 with hq2
  set p3 := sortPair node q1.1 with hp3
  set p4 := sortPair node q2.1 with hp4
  set p5 := sortPair q1.2 q2.2 with hp5
  split at hok
  case isFalse => exact absurd hok (by simp)
  case isTrue hcond =>
  rw [Except.ok.injEq] at hok
  subst hok
  obtain ⟨hxy, hx, hy, hndc, hq1m, hq2m, h3, h4, h5⟩ := hcond
  have hbx : 2 * ch.1 + 1 < st.stubs.length := by omega
  have hby : 2 * ch.2 + 1 < st.stubs.length := by omega
  simp only [List.nodup_cons, List.mem_cons, List.mem_singleton, List.not_mem_nil,
    or_false, not_or, List.nodup_nil, and_true] at hndc
  obtain ⟨⟨hna, hnb, hnd2, hne⟩, ⟨hab, had, hae⟩, ⟨hbd, hbe⟩, hde, -⟩ := hndc
  have hslotx : slotPair st.stubs ch.1 = q1 := rfl
  have hsloty : slotPair st.stubs ch.2 = q2 := rfl
  have hq1net : q1 ∈ st.net := by
    rcases hK ch.1 hx with hcase | hcase | hcase
    · rw [hslotx, hq1] at hcase
      exact absurd (sortPair_self_iff.mp hcase) hab
    · rw [hslotx] at hcase
      exact absurd hcase hq1m
    · rw [hslotx] at hcase
      exact hcase
  have hq2net : q2 ∈ st.net := by
    rcases hK ch.2 hy with hcase | hcase | hcase
    · rw [hsloty, hq2] at hcase
      exact absurd (sortPair_self_iff.mp hcase) hde
    · rw [hsloty] at hcase
      exact absurd hcase hq2m
    · rw [hsloty] at hcase
      exact hcase
  have hq11 : q1.1 = a ∨ q1.1 = b := by rw [hq1]; exact sortPair_fst_mem a b
  have hq12 : q1.2 = a ∨ q1.2 = b := by rw [hq1]; exact sortPair_snd_mem a b
  have hq21 : q2.1 = d ∨ q2.1 = e0 := by rw [hq2]; exact sortPair_fst_mem d e0
  have hq22 : q2.2 = d ∨ q2.2 = e0 := by rw [hq2]; exact sortPair_snd_mem d e0
  have hq1lt : q1.1 < q1.2 := by rw [hq1]; exact sortPair_lt hab
  have hq2lt : q2.1 < q2.2 := by rw [hq2]; exact sortPair_lt hde
  have hnq11 : node ≠ q1.1 := by rcases hq11 with h | h <;> rw [h] <;> assumption
  have hnq12 : node ≠ q1.2 := by rcases hq12 with h | h <;> rw [h] <;> assumption
  have hnq21 : node ≠ q2.1 := by rcases hq21 with h | h <;> rw [h] <;> assumption
  have hnq22 : node ≠ q2.2 := by rcases hq22 with h | h <;> rw [h] <;> assumption
  have hq11q21 : q1.1 ≠ q2.1 := by
    rcases hq11 with h | h <;> rcases hq21 with h' | h' <;> rw [h, h'] <;> assumption
  have hq12q22 : q1.2 ≠ q2.2 := by
    rcases hq12 with h | h <;> rcases hq22 with h' | h' <;> rw [h, h'] <;> assumption
  have hq1q2 : q1 ≠ q2 := by
    rw [hq1, hq2]
    intro h
    rcases sortPair_eq_iff.mp h with ⟨h1, h2⟩ | ⟨h1, h2⟩
    · exact had h1
    · exact hae h1
  have hp3lt : p3.1 < p3.2 := by rw [hp3]; exact sortPair_lt hnq11
  have hp4lt : p4.1 < p4.2 := by rw [hp4]; exact sortPair_lt hnq21
  have hp5lt : p5.1 < p5.2 := by rw [hp5]; exact sortPair_lt hq12q22
  have hp3p4 : p3 ≠ p4 := by
    rw [hp3, hp4]
    intro h
    rcases sortPair_eq_iff.mp h with ⟨h1, h2⟩ | ⟨h1, h2⟩
    · exact hq11q21 h2
    · exact hnq21 h1
  have hp3p5 : p3 ≠ p5 := by
    rw [hp3, hp5]
    intro h
    rcases sortPair_eq_iff.mp h with ⟨h1, h2⟩ | ⟨h1, h2⟩
    · exact hnq12 h1
    · exact hnq22 h1
  have hp4p5 : p4 ≠ p5 := by
    rw [hp4, hp5]
    intro h
    rcases sortPair_eq_iff.mp h with ⟨h1, h2⟩ | ⟨h1, h2⟩
    · exact hnq12 h1
    · exact hnq22 h1
  have hp3n : p3 ∉ st.net := netGet_eq_zero_iff.mp h3
  have hp4n : p4 ∉ st.net := netGet_eq_zero_iff.mp h4
  have hp5n : p5 ∉ st.net := netGet_eq_zero_iff.mp h5
  set netA1 := netSet0 st.net q1 with hA1
  set netA := netSet0 netA1 q2 with hA
  set netB1 := netSet1 netA p3 with hB1
  set netB2 := netSet1 netB1 p4 with hB2
  set netB := netSet1 netB2 p5 with hB
  have hndA1 : netA1.Nodup := nodup_netSet0 hnd
  have hndA : netA.Nodup := nodup_netSet0 hndA1
  have hndB1 : netB1.Nodup := nodup_netSet1 hndA
  have hndB2 : netB2.Nodup := nodup_netSet1 hndB1
  have hndB : netB.Nodup := nodup_netSet1 hndB2
  have hq2A1 : q2 ∈ netA1 := (mem_netSet0 hnd).mpr ⟨Ne.symm hq1q2, hq2net⟩
  have hmemA : ∀ r : Pair, r ∈ netA ↔ (r ∈ st.net ∧ r ≠ q1 ∧ r ≠ q2) := by
    intro r
    rw [hA, mem_netSet0 hndA1, hA1, mem_netSet0 hnd]
    tauto
  have hp3A : p3 ∉ netA := fun hmA => hp3n ((hmemA p3).mp hmA).1
  have hp4B1 : p4 ∉ netB1 := by
    rw [hB1, mem_netSet1]
    rintro (h | h)
    · exact hp3p4 h.symm
    · exact hp4n ((hmemA p4).mp h).1
  have hp5B2 : p5 ∉ netB2 := by
    rw [hB2, mem_netSet1]
    rintro (h | h)
    · exact hp4p5 h.symm
    · rw [hB1, mem_netSet1] at h
      rcases h with h | h
      · exact hp3p5 h.symm
      · exact hp5n ((hmemA p5).mp h).1
  have hmemB : ∀ r : Pair,
      r ∈ netB ↔ r = p5 ∨ r = p4 ∨ r = p3 ∨ (r ∈ st.net ∧ r ≠ q1 ∧ r ≠ q2) := by
    intro r
    rw [hB, mem_netSet1, hB2, mem_netSet1, hB1, mem_netSet1, hmemA r]
  -- stub list update characterization
  set stubs1 := stubsWrite st.stubs si p5 with hs1
  set stubs2 := stubsWrite stubs1 (2 * ch.1) p3 with hs2
  set stubs3 := stubsWrite stubs2 (2 * ch.2) p4 with hs3
  have hlen1 : stubs1.length = st.stubs.length := length_stubsWrite _ _ _
  have hlen2 : stubs2.length = st.stubs.length := by
    rw [hs2, length_stubsWrite, hlen1]
  have hlen3 : stubs3.length = st.stubs.length := by
    rw [hs3, length_stubsWrite, hlen2]
  have hsieq : si = 2 * (si / 2) := by omega
  have hp5idem : sortPair p5.1 p5.2 = p5 := by
    rw [hp5]; exact sortPair_idem _ _
  have hp3idem : sortPair p3.1 p3.2 = p3 := by
    rw [hp3]; exact sortPair_idem _ _
  have hp4idem : sortPair p4.1 p4.2 = p4 := by
    rw [hp4]; exact sortPair_idem _ _
  have hw1 : ∀ s, slotPair stubs1 s =
      if s = si / 2 then p5 else slotPair st.stubs s := by
    intro s
    have h := slotPair_stubsWrite st.stubs (si / 2) p5 s (by omega)
    rw [hp5idem] at h
    rw [hs1, show stubsWrite st.stubs si p5 = stubsWrite st.stubs (2 * (si / 2)) p5 from
      by rw [← hsieq]]
    exact h
  have hw2 : ∀ s, slotPair stubs2 s =
      if s = ch.1 then p3 else slotPair stubs1 s := by
    intro s
    rw [hs2, slotPair_stubsWrite stubs1 ch.1 p3 s (by omega), hp3idem]
  have hw3 : ∀ s, slotPair stubs3 s =
      if s = ch.2 then p4 else slotPair stubs2 s := by
    intro s
    rw [hs3, slotPair_stubsWrite stubs2 ch.2 p4 s (by omega), hp4idem]
  have hw : ∀ s, slotPair stubs3 s =
      if s = ch.2 then p4
      else if s = ch.1 then p3
      else if s = si / 2 then p5
      else slotPair st.stubs s := by
    intro s
    rw [hw3 s, hw2 s, hw1 s]
  have hnotold : ∀ u r, u < st.stubs.length / 2 → slotPair st.stubs u = r →
      r ∉ multi → (r = p3 ∨ r = p4 ∨ r = p5) → False := by
    intro u r hu hsl hrm hr
    rcases hK u hu with hcase | hcase | hcase
    · rw [hsl] at hcase
      rcases hr with rfl | rfl | rfl <;> omega
    · rw [hsl] at hcase
      exact hrm hcase
    · rw [hsl] at hcase
      rcases hr with rfl | rfl | rfl
      · exact hp3n hcase
      · exact hp4n hcase
      · exact hp5n hcase
  refine ⟨⟨hndB, ?_, ?_, ?_⟩, hlen3, ?_, ?_, ?_⟩
  · -- sortedness
    intro r hr
    rcases (hmemB r).mp hr with rfl | rfl | rfl | ⟨hmem, _, _⟩
    · exact hp5lt
    · exact hp4lt
    · exact hp3lt
    · exact hsort r hmem
  · -- slot invariant
    intro s hs
    rw [hlen3] at hs
    rw [hw s]
    by_cases hs2c : s = ch.2
    · rw [if_pos hs2c]
      exact Or.inr (Or.inr ((hmemB p4).mpr (Or.inr (Or.inl rfl))))
    · rw [if_neg hs2c]
      by_cases hs1c : s = ch.1
      · rw [if_pos hs1c]
        exact Or.inr (Or.inr ((hmemB p3).mpr (Or.inr (Or.inr (Or.inl rfl)))))
      · rw [if_neg hs1c]
        by_cases hs0c : s = si / 2
        · rw [if_pos hs0c]
          exact Or.inr (Or.inr ((hmemB p5).mpr (Or.inl rfl)))
        · rw [if_neg hs0c]
          rcases hK s hs with hcase | hcase | hcase
          · exact Or.inl hcase
          · exact Or.inr (Or.inl hcase)
          · refine Or.inr (Or.inr ((hmemB _).mpr (Or.inr (Or.inr (Or.inr
              ⟨hcase, ?_, ?_⟩)))))
            · intro heq1
              exact hs1c (hU s hs ch.1 hx (by rw [heq1, hslotx])
                (by rw [heq1]; omega) (by rw [heq1]; exact hq1m))
            · intro heq2
              exact hs2c (hU s hs ch.2 hy (by rw [heq2, hsloty])
                (by rw [heq2]; omega) (by rw [heq2]; exact hq2m))
  · -- uniqueness of simple committed slots
    intro s hs t ht heq hdist hnm
    rw [hlen3] at hs ht
    rw [hw s] at heq hdist hnm
    rw [hw t] at heq
    by_cases hs2c : s = ch.2
    · rw [if_pos hs2c] at heq hdist hnm
      by_cases ht2c : t = ch.2
      · omega
      · rw [if_neg ht2c] at heq
        by_cases ht1c : t = ch.1
        · rw [if_pos ht1c] at heq
          exact absurd heq (Ne.symm hp3p4)
        · rw [if_neg ht1c] at heq
          by_cases ht0c : t = si / 2
          · rw [if_pos ht0c] at heq
            exact absurd heq hp4p5
          · rw [if_neg ht0c] at heq
            exact (hnotold t p4 ht heq.symm hnm (Or.inr (Or.inl rfl))).elim
    · rw [if_neg hs2c] at heq hdist hnm
      by_cases hs1c : s = ch.1
      · rw [if_pos hs1c] at heq hdist hnm
        by_cases ht2c : t = ch.2
        · rw [if_pos ht2c] at heq
          exact absurd heq hp3p4
        · rw [if_neg ht2c] at heq
          by_cases ht1c : t = ch.1
          · omega
          · rw [if_neg ht1c] at heq
            by_cases ht0c : t = si / 2
            · rw [if_pos ht0c] at heq
              exact absurd heq hp3p5
            · rw [if_neg ht0c] at heq
              exact (hnotold t p3 ht heq.symm hnm (Or.inl rfl)).elim
      · rw [if_neg hs1c] at heq hdist hnm
        by_cases hs0c : s = si / 2
        · rw [if_pos hs0c] at heq hdist hnm
          by_cases ht2c : t = ch.2
          · rw [if_pos ht2c] at heq
            exact absurd heq (Ne.symm hp4p5)
          · rw [if_neg ht2c] at heq
            by_cases ht1c : t = ch.1
            · rw [if_pos ht1c] at heq
              exact absurd heq (Ne.symm hp3p5)
            · rw [if_neg ht1c] at heq
              by_cases ht0c : t = si / 2
              · omega
              · rw [if_neg ht0c] at heq
                exact (hnotold t p5 ht heq.symm hnm (Or.inr (Or.inr rfl))).elim
        · rw [if_neg hs0c] at heq hdist hnm
          by_cases ht2c : t = ch.2
          · rw [if_pos ht2c] at heq
            rw [heq] at hnm
            exact (hnotold s p4 hs heq hnm (Or.inr (Or.inl rfl))).elim
          · rw [if_neg ht2c] at heq
            by_cases ht1c : t = ch.1
            · rw [if_pos ht1c] at heq
              rw [heq] at hnm
              exact (hnotold s p3 hs heq hnm (Or.inl rfl)).elim
            · rw [if_neg ht1c] at heq
              by_cases ht0c : t = si / 2
              · rw [if_pos ht0c] at heq
                rw [heq] at hnm
                exact (hnotold s p5 hs heq hnm (Or.inr (Or.inr rfl))).elim
              · rw [if_neg ht0c] at heq
                exact hU s hs t ht heq hdist hnm
  · -- edge count
    show netB.length = st.net.length + 1
    have hlA1 : netA1.length + 1 = st.net.length := length_netSet0_mem hq1net
    have hlA : netA.length + 1 = netA1.length := length_netSet0_mem hq2A1
    have hlB1 : netB1.length = netA.length + 1 := length_netSet1_not_mem hp3A
    have hlB2 : netB2.length = netB1.length + 1 := length_netSet1_not_mem hp4B1
    have hlB : netB.length = netB2.length + 1 := length_netSet1_not_mem hp5B2
    omega
  · -- degree accounting
    intro v
    show deg netB v = deg st.net v + 2 * (if v = node then 1 else 0)
    have hd1 : deg netA1 v + inc v q1 = deg st.net v :=
      deg_netSet0_mem hnd hq1net (by omega) v
    have hd2 : deg netA v + inc v q2 = deg netA1 v :=
      deg_netSet0_mem hndA1 hq2A1 (by omega) v
    have hd3 : deg netB1 v = deg netA v + inc v p3 :=
      deg_netSet1_not_mem hp3A (by omega) v
    have hd4 : deg netB2 v = deg netB1 v + inc v p4 :=
      deg_netSet1_not_mem hp4B1 (by omega) v
    have hd5 : deg netB v = deg netB2 v + inc v p5 :=
      deg_netSet1_not_mem hp5B2 (by omega) v
    have hiq1 : inc v q1 = (if q1.1 = v then 1 else 0) + (if q1.2 = v then 1 else 0) :=
      rfl
    have hiq2 : inc v q2 = (if q2.1 = v then 1 else 0) + (if q2.2 = v then 1 else 0) :=
      rfl
    have hip3 : inc v p3 = (if node = v then 1 else 0) + (if q1.1 = v then 1 else 0) := by
      rw [hp3, inc_sortPair]
    have hip4 : inc v p4 = (if node = v then 1 else 0) + (if q2.1 = v then 1 else 0) := by
      rw [hp4, inc_sortPair]
    have hip5 : inc v p5 = (if q1.2 = v then 1 else 0) + (if q2.2 = v then 1 else 0) := by
      rw [hp5, inc_sortPair]
    have hbr : (if v = node then (1 : Nat) else 0) = (if node = v then 1 else 0) := by
      by_cases h : v = node
      · rw [if_pos h, if_pos h.symm]
      · rw [if_neg h, if_neg (fun hh => h hh.symm)]
    rw [hbr]
    omega
  · -- known multi-edges keep their committed edge
    intro q hq hqnet
    show q ∈ netB
    refine (hmemB q).mpr (Or.inr (Or.inr (Or.inr ⟨hqnet, ?_, ?_⟩)))
    · rintro rfl; exact hq1m hq
    · rintro rfl; exact hq2m hq

end Pymnet

namespace Pymnet

/-! ### The self-loop eliminator: folding over all occurrences -/

theorem selfRewire_err {multi : List Pair} {node si : Nat} {ch : Choice} {st : RWState}
    {e : Err} (h : selfRewire multi node si ch st = .error e) : e = .choiceRejected := by
  simp only [selfRewire] at h
  split at h
  · cases h
  · cases h
    rfl

theorem runSelfOccs_spec {multi : List Pair} {node : Nat} :
    ∀ (sis : List Nat) (cs : List Choice) (st st' : RWState) (cs' : List Choice),
    Inv multi st →
    (∀ si ∈ sis, si % 2 = 0 ∧ si + 1 < st.stubs.length) →
    runSelfOccs multi node sis cs st = .ok (st', cs') →
    Inv multi st' ∧ st'.stubs.length = st.stubs.length ∧
      st'.net.length = st.net.length + sis.length ∧
      (∀ v, deg st'.net v = deg st.net v + 2 * (if node = v then sis.length else 0)) ∧
      (∀ q ∈ multi, q ∈ st.net → q ∈ st'.net) := by
  intro sis
  induction sis with
  | nil =>
    intro cs st st' cs' hInv halign hok
    simp only [runSelfOccs, Except.ok.injEq, Prod.mk.injEq] at hok
    obtain ⟨rfl, rfl⟩ := hok
    refine ⟨hInv, rfl, by simp, fun v => by simp, fun q _ hq => hq⟩
  | cons si sis ih =>
    intro cs st st' cs' hInv halign hok
    match cs with
    | [] => simp [runSelfOccs] at hok
    | ch :: cs =>
      rw [runSelfOccs] at hok
      cases hsr : selfRewire multi node si ch st with
      | error e => rw [hsr] at hok; cases hok
      | ok st1 =>
        rw [hsr] at hok
        obtain ⟨hsi0, hsi1⟩ := halign si (List.mem_cons_self _ _)
        obtain ⟨hInv1, hlen1, hnl1, hdeg1, hsub1⟩ :=
          selfRewire_spec hInv hsi0 hsi1 hsr
        obtain ⟨hInv2, hlen2, hnl2, hdeg2, hsub2⟩ :=
          ih cs st1 st' cs' hInv1
            (fun si2 hm => by
              obtain ⟨h1, h2⟩ := halign si2 (List.mem_cons_of_mem _ hm)
              exact ⟨h1, by omega⟩)
            hok
        refine ⟨hInv2, by omega, by simp [List.length_cons]; omega, ?_, ?_⟩
        · intro v
          have h1 := hdeg1 v
          have h2 := hdeg2 v
          have hbr : (if v = node then (1 : Nat) else 0)
              = (if node = v then 1 else 0) := by
            by_cases h : v = node
            · rw [if_pos h, if_pos h.symm]
            · rw [if_neg h, if_neg (fun hh => h hh.symm)]
          rw [hbr] at h1
          by_cases hv : node = v
          · rw [if_pos hv] at h1 h2 ⊢
            simp only [List.length_cons]
            omega
          · rw [if_neg hv] at h1 h2 ⊢
            omega
        · intro q hq hqnet
          exact hsub2 q hq (hsub1 q hq hqnet)

theorem phase2Go_spec {multi : List Pair} :
    ∀ (entries : List (Nat × List Nat)) (cs : List Choice) (st st' : RWState)
      (cs' : List Choice),
    Inv multi st →
    (∀ n sis, (n, sis) ∈ entries → ∀ si ∈ sis, si % 2 = 0 ∧ si + 1 < st.stubs.length) →
    phase2Go multi entries cs st = .ok (st', cs') →
    Inv multi st' ∧ st'.stubs.length = st.stubs.length ∧
      st'.net.length = st.net.length + selfTotal entries ∧
      (∀ v, deg st'.net v = deg st.net v + 2 * selfWeight entries v) ∧
      (∀ q ∈ multi, q ∈ st.net → q ∈ st'.net) := by
  intro entries
  induction entries with
  | nil =>
    intro cs st st' cs' hInv halign hok
    simp only [phase2Go, Except.ok.injEq, Prod.mk.injEq] at hok
    obtain ⟨rfl, rfl⟩ := hok
    refine ⟨hInv, rfl, by simp [selfTotal], fun v => by simp [selfWeight],
      fun q _ hq => hq⟩
  | cons entry rest ih =>
    intro cs st st' cs' hInv halign hok
    obtain ⟨node, sis⟩ := entry
    rw [phase2Go] at hok
    cases hro : runSelfOccs multi node sis cs st with
    | error e => rw [hro] at hok; cases hok
    | ok out =>
      obtain ⟨st1, cs1⟩ := out
      rw [hro] at hok
      obtain ⟨hInv1, hlen1, hnl1, hdeg1, hsub1⟩ :=
        runSelfOccs_spec sis cs st st1 cs1 hInv
          (fun si hm => halign node sis (List.mem_cons_self _ _) si hm) hro
      obtain ⟨hInv2, hlen2, hnl2, hdeg2, hsub2⟩ :=
        ih cs1 st1 st' cs' hInv1
          (fun n2 sis2 hm si hm2 => by
            obtain ⟨h1, h2⟩ := halign n2 sis2 (List.mem_cons_of_mem _ hm) si hm2
            exact ⟨h1, by omega⟩)
          hok
      refine ⟨hInv2, by omega, ?_, ?_, ?_⟩
      · rw [selfTotal_cons]
        omega
      · intro v
        have h1 := hdeg1 v
        have h2 := hdeg2 v
        rw [selfWeight_cons]
        omega
      · intro q hq hqnet
        exact hsub2 q hq (hsub1 q hq hqnet)

end Pymnet

namespace Pymnet

/-! ### The multi-edge eliminator: one accepted round -/

theorem lastD_mem {l : List Nat} (h : l ≠ []) : l.getLast?.getD 0 ∈ l := by
  rw [List.getLast?_eq_getLast l h]
  simp

theorem sortPair_of_lt {p : Pair} (h : p.1 < p.2) : sortPair p.1 p.2 = p := by
  unfold sortPair
  rw [if_pos (by omega)]

theorem multiRound_spec {multi : List Pair} {p : Pair} {reg : List Nat} {ch : Choice}
    {st st' : RWState} {reg' : List Nat} (hInv : Inv multi st) (hpm : p ∈ multi)
    (hplt : p.1 < p.2) (hpnet : p ∈ st.net) (hreg : 2 ≤ reg.length)
    (halign : ∀ i ∈ reg, i % 2 = 0 ∧ i + 1 < st.stubs.length)
    (hok : multiRound multi p reg ch st = .ok (st', reg')) :
    Inv multi st' ∧ st'.stubs.length = st.stubs.length ∧
      reg' = reg.dropLast.dropLast ∧
      st'.net.length + (if reg.length = 2 then 1 else 0) = st.net.length + 2 ∧
      (∀ v, deg st'.net v + (if reg.length = 2 then inc v p else 0)
          = deg st.net v + 2 * inc v p) ∧
      (∀ q ∈ multi, q ≠ p → q ∈ st.net → q ∈ st'.net) ∧
      (reg.length ≠ 2 → p ∈ st'.net) ∧ (reg.length = 2 → p ∉ st'.net) ∧
      netGet st'.net (sortPair (nth st.stubs (2 * ch.1)) (nth st.stubs (2 * ch.1 + 1)))
        = 0 ∧
      netGet st'.net (sortPair (nth st.stubs (2 * ch.2)) (nth st.stubs (2 * ch.2 + 1)))
        = 0 ∧
      netGet st'.net (sortPair p.1
        (sortPair (nth st.stubs (2 * ch.1)) (nth st.stubs (2 * ch.1 + 1))).1) = 1 ∧
      netGet st'.net (sortPair p.2
        (sortPair (nth st.stubs (2 * ch.1)) (nth st.stubs (2 * ch.1 + 1))).2) = 1 ∧
      netGet st'.net (sortPair p.1
        (sortPair (nth st.stubs (2 * ch.2)) (nth st.stubs (2 * ch.2 + 1))).1) = 1 ∧
      netGet st'.net (sortPair p.2
        (sortPair (nth st.stubs (2 * ch.2)) (nth st.stubs (2 * ch.2 + 1))).2) = 1 := by
  obtain ⟨hnd, hsort, hK, hU⟩ := hInv
  simp only [multiRound] at hok
  set a := nth st.stubs (2 * ch.1) with ha
  set b := nth st.stubs (2 * ch.1 + 1) with hb
  set d := nth st.stubs (2 * ch.2) with hd
  set e0 := nth st.stubs (2 * ch.2 + 1) with he0
  set q1 := sortPair a b with hq1
  set q2 := sortPair d e0 with hq2
  set P3 := sortPair p.1 q1.1 with hP3
  set P4 := sortPair p.2 q1.2 with hP4
  set P5 := sortPair p.1 q2.1 with hP5
  set P6 := sortPair p.2 q2.2 with hP6
  split at hok
  case isFalse => exact absurd hok (by simp)
  case isTrue hcond =>
  obtain ⟨hxy, hx, hy, hndc, hq1m, hq2m, h3, h4, h5, h6⟩ := hcond
  set net0 := if reg.length = 2 then netSet0 st.net p else st.net with hnet0
  split at hok
  case isFalse => exact absurd hok (by simp)
  case isTrue hA1c =>
  split at hok
  case isFalse => exact absurd hok (by simp)
  case isTrue hA2c =>
  rw [Except.ok.injEq, Prod.mk.injEq] at hok
  obtain ⟨hok1, hok2⟩ := hok
  subst hok1
  subst hok2
  have hbx : 2 * ch.1 + 1 < st.stubs.length := by omega
  have hby : 2 * ch.2 + 1 < st.stubs.length := by omega
  simp only [List.nodup_cons, List.mem_cons, List.mem_singleton, List.not_mem_nil,
    or_false, not_or, List.nodup_nil, and_true] at hndc
  obtain ⟨⟨h12, h1a, h1b, h1d, h1e⟩, ⟨h2a, h2b, h2d, h2e⟩, ⟨hab, had, hae⟩,
    ⟨hbd, hbe⟩, hde, -⟩ := hndc
  have hslotx : slotPair st.stubs ch.1 = q1 := rfl
  have hsloty : slotPair st.stubs ch.2 = q2 := rfl
  -- the two sampled pairs are committed edges
  have hq1net : q1 ∈ st.net := by
    rcases hK ch.1 hx with hcase | hcase | hcase
    · rw [hslotx, hq1] at hcase
      exact absurd (sortPair_self_iff.mp hcase) hab
    · rw [hslotx] at hcase
      exact absurd hcase hq1m
    · rw [hslotx] at hcase
      exact hcase
  have hq2net : q2 ∈ st.net := by
    rcases hK ch.2 hy with hcase | hcase | hcase
    · rw [hsloty, hq2] at hcase
      exact absurd (sortPair_self_iff.mp hcase) hde
    · rw [hsloty] at hcase
      exact absurd hcase hq2m
    · rw [hsloty] at hcase
      exact hcase
  have hq11 : q1.1 = a ∨ q1.1 = b := by rw [hq1]; exact sortPair_fst_mem a b
  have hq12 : q1.2 = a ∨ q1.2 = b := by rw [hq1]; exact sortPair_snd_mem a b
  have hq21 : q2.1 = d ∨ q2.1 = e0 := by rw [hq2]; exact sortPair_fst_mem d e0
  have hq22 : q2.2 = d ∨ q2.2 = e0 := by rw [hq2]; exact sortPair_snd_mem d e0
  have hq1lt : q1.1 < q1.2 := by rw [hq1]; exact sortPair_lt hab
  have hq2lt : q2.1 < q2.2 := by rw [hq2]; exact sortPair_lt hde
  have h1q11 : p.1 ≠ q1.1 := by rcases hq11 with h | h <;> rw [h] <;> assumption
  have h1q12 : p.1 ≠ q1.2 := by rcases hq12 with h | h <;> rw [h] <;> assumption
  have h1q21 : p.1 ≠ q2.1 := by rcases hq21 with h | h <;> rw [h] <;> assumption
  have h1q22 : p.1 ≠ q2.2 := by rcases hq22 with h | h <;> rw [h] <;> assumption
  have h2q11 : p.2 ≠ q1.1 := by rcases hq11 with h | h <;> rw [h] <;> assumption
  have h2q12 : p.2 ≠ q1.2 := by rcases hq12 with h | h <;> rw [h] <;> assumption
  have h2q21 : p.2 ≠ q2.1 := by rcases hq21 with h | h <;> rw [h] <;> assumption
  have h2q22 : p.2 ≠ q2.2 := by rcases hq22 with h | h <;> rw [h] <;> assumption
  have hq11q21 : q1.1 ≠ q2.1 := by
    rcases hq11 with h | h <;> rcases hq21 with h' | h' <;> rw [h, h'] <;> assumption
  have hq11q22 : q1.1 ≠ q2.2 := by
    rcases hq11 with h | h <;> rcases hq22 with h' | h' <;> rw [h, h'] <;> assumption
  have hq12q21 : q1.2 ≠ q2.1 := by
    rcases hq12 with h | h <;> rcases hq21 with h' | h' <;> rw [h, h'] <;> assumption
  have hq12q22 : q1.2 ≠ q2.2 := by
    rcases hq12 with h | h <;> rcases hq22 with h' | h' <;> rw [h, h'] <;> assumption
  have hq1q2 : q1 ≠ q2 := by
    rw [hq1, hq2]
    intro h
    rcases sortPair_eq_iff.mp h with ⟨h1, h2⟩ | ⟨h1, h2⟩
    · exact had h1
    · exact hae h1
  have hpq1 : p ≠ q1 := by rintro rfl; exact hq1m hpm
  have hpq2 : p ≠ q2 := by rintro rfl; exact hq2m hpm
  have hP3lt : P3.1 < P3.2 := by rw [hP3]; exact sortPair_lt h1q11
  have hP4lt : P4.1 < P4.2 := by rw [hP4]; exact sortPair_lt h2q12
  have hP5lt : P5.1 < P5.2 := by rw [hP5]; exact sortPair_lt h1q21
  have hP6lt : P6.1 < P6.2 := by rw [hP6]; exact sortPair_lt h2q22
  have hP34 : P3 ≠ P4 := by
    rw [hP3, hP4]
    intro h
    rcases sortPair_eq_iff.mp h with ⟨h1, h2⟩ | ⟨h1, h2⟩
    · omega
    · exact h1q12 h1
  have hP35 : P3 ≠ P5 := by
    rw [hP3, hP5]
    intro h
    rcases sortPair_eq_iff.mp h with ⟨h1, h2⟩ | ⟨h1, h2⟩
    · exact hq11q21 h2
    · exact h1q21 h1
  have hP36 : P3 ≠ P6 := by
    rw [hP3, hP6]
    intro h
    rcases sortPair_eq_iff.mp h with ⟨h1, h2⟩ | ⟨h1, h2⟩
    · omega
    · exact h1q22 h1
  have hP45 : P4 ≠ P5 := by
    rw [hP4, hP5]
    intro h
    rcases sortPair_eq_iff.mp h with ⟨h1, h2⟩ | ⟨h1, h2⟩
    · omega
    · exact h2q21 h1
  have hP46 : P4 ≠ P6 := by
    rw [hP4, hP6]
    intro h
    rcases sortPair_eq_iff.mp h with ⟨h1, h2⟩ | ⟨h1, h2⟩
    · exact hq12q22 h2
    · exact h2q22 h1
  have hP56 : P5 ≠ P6 := by
    rw [hP5, hP6]
    intro h
    rcases sortPair_eq_iff.mp h with ⟨h1, h2⟩ | ⟨h1, h2⟩
    · omega
    · exact h1q22 h1
  have hpP3 : p ≠ P3 := by
    intro h
    have h2 : sortPair p.1 q1.1 = sortPair p.1 p.2 := by
      rw [← hP3, ← h, sortPair_of_lt hplt]
    rcases sortPair_eq_iff.mp h2 with ⟨h1', h2'⟩ | ⟨h1', h2'⟩
    · exact h2q11 h2'.symm
    · omega
  have hpP4 : p ≠ P4 := by
    intro h
    have h2 : sortPair p.2 q1.2 = sortPair p.1 p.2 := by
      rw [← hP4, ← h, sortPair_of_lt hplt]
    rcases sortPair_eq_iff.mp h2 with ⟨h1', h2'⟩ | ⟨h1', h2'⟩
    · omega
    · exact h1q12 h2'.symm
  have hpP5 : p ≠ P5 := by
    intro h
    have h2 : sortPair p.1 q2.1 = sortPair p.1 p.2 := by
      rw [← hP5, ← h, sortPair_of_lt hplt]
    rcases sortPair_eq_iff.mp h2 with ⟨h1', h2'⟩ | ⟨h1', h2'⟩
    · exact h2q21 h2'.symm
    · omega
  have hpP6 : p ≠ P6 := by
    intro h
    have h2 : sortPair p.2 q2.2 = sortPair p.1 p.2 := by
      rw [← hP6, ← h, sortPair_of_lt hplt]
    rcases sortPair_eq_iff.mp h2 with ⟨h1', h2'⟩ | ⟨h1', h2'⟩
    · omega
    · exact h1q22 h2'.symm
  have hq1P3 : q1 ≠ P3 := by
    intro h
    have h2 : sortPair q1.1 q1.2 = sortPair p.1 q1.1 := by
      rw [sortPair_of_lt hq1lt, ← hP3]; exact h
    rcases sortPair_eq_iff.mp h2 with ⟨h1', h2'⟩ | ⟨h1', h2'⟩
    · exact h1q11 h1'.symm
    · exact h1q12 h2'.symm
  have hq1P4 : q1 ≠ P4 := by
    intro h
    have h2 : sortPair q1.1 q1.2 = sortPair p.2 q1.2 := by
      rw [sortPair_of_lt hq1lt, ← hP4]; exact h
    rcases sortPair_eq_iff.mp h2 with ⟨h1', h2'⟩ | ⟨h1', h2'⟩
    · exact h2q11 h1'.symm
    · omega
  have hq1P5 : q1 ≠ P5 := by
    intro h
    have h2 : sortPair q1.1 q1.2 = sortPair p.1 q2.1 := by
      rw [sortPair_of_lt hq1lt, ← hP5]; exact h
    rcases sortPair_eq_iff.mp h2 with ⟨h1', h2'⟩ | ⟨h1', h2'⟩
    · exact h1q11 h1'.symm
    · exact hq11q21 h1'
  have hq1P6 : q1 ≠ P6 := by
    intro h
    have h2 : sortPair q1.1 q1.2 = sortPair p.2 q2.2 := by
      rw [sortPair_of_lt hq1lt, ← hP6]; exact h
    rcases sortPair_eq_iff.mp h2 with ⟨h1', h2'⟩ | ⟨h1', h2'⟩
    · exact h2q11 h1'.symm
    · exact hq11q22 h1'
  have hq2P3 : q2 ≠ P3 := by
    intro h
    have h2 : sortPair q2.1 q2.2 = sortPair p.1 q1.1 := by
      rw [sortPair_of_lt hq2lt, ← hP3]; exact h
    rcases sortPair_eq_iff.mp h2 with ⟨h1', h2'⟩ | ⟨h1', h2'⟩
    · exact h1q21 h1'.symm
    · exact hq11q21 h1'.symm
  have hq2P4 : q2 ≠ P4 := by
    intro h
    have h2 : sortPair q2.1 q2.2 = sortPair p.2 q1.2 := by
      rw [sortPair_of_lt hq2lt, ← hP4]; exact h
    rcases sortPair_eq_iff.mp h2 with ⟨h1', h2'⟩ | ⟨h1', h2'⟩
    · exact h2q21 h1'.symm
    · exact hq12q21 h1'.symm
  have hq2P5 : q2 ≠ P5 := by
    intro h
    have h2 : sortPair q2.1 q2.2 = sortPair p.1 q2.1 := by
      rw [sortPair_of_lt hq2lt, ← hP5]; exact h
    rcases sortPair_eq_iff.mp h2 with ⟨h1', h2'⟩ | ⟨h1', h2'⟩
    · exact h1q21 h1'.symm
    · exact h1q22 h2'.symm
  have hq2P6 : q2 ≠ P6 := by
    intro h
    have h2 : sortPair q2.1 q2.2 = sortPair p.2 q2.2 := by
      rw [sortPair_of_lt hq2lt, ← hP6]; exact h
    rcases sortPair_eq_iff.mp h2 with ⟨h1', h2'⟩ | ⟨h1', h2'⟩
    · exact h2q21 h1'.symm
    · omega
  -- the intermediate network after the conditional base-edge removal
  have hnd0 : net0.Nodup := by
    rw [hnet0]
    by_cases hl : reg.length = 2
    · rw [if_pos hl]; exact nodup_netSet0 hnd
    · rw [if_neg hl]; exact hnd
  have hmem0 : ∀ r : Pair, r ∈ net0 ↔ (r ∈ st.net ∧ (reg.length = 2 → r ≠ p)) := by
    intro r
    rw [hnet0]
    by_cases hl : reg.length = 2
    · rw [if_pos hl, mem_netSet0 hnd]
      constructor
      · rintro ⟨h1, h2⟩; exact ⟨h2, fun _ => h1⟩
      · rintro ⟨h1, h2⟩; exact ⟨h2 hl, h1⟩
    · rw [if_neg hl]
      constructor
      · intro h; exact ⟨h, fun hc => absurd hc hl⟩
      · exact fun h => h.1
  have hq1n0 : q1 ∈ net0 := netGet_eq_one_iff.mp hA1c
  have hq2n0 : q2 ∈ net0 := netGet_eq_one_iff.mp hA2c
  have hP3n : P3 ∉ st.net := netGet_eq_zero_iff.mp h3
  have hP4n : P4 ∉ st.net := netGet_eq_zero_iff.mp h4
  have hP5n : P5 ∉ st.net := netGet_eq_zero_iff.mp h5
  have hP6n : P6 ∉ st.net := netGet_eq_zero_iff.mp h6
  set netA1 := netSet0 net0 q1 with hnA1
  set netA := netSet0 netA1 q2 with hnA
  set netB1 := netSet1 netA P3 with hnB1
  set netB2 := netSet1 netB1 P4 with hnB2
  set netB3 := netSet1 netB2 P5 with hnB3
  set netB := netSet1 netB3 P6 with hnB
  have hndA1 : netA1.Nodup := nodup_netSet0 hnd0
  have hndA : netA.Nodup := nodup_netSet0 hndA1
  have hndB1 : netB1.Nodup := nodup_netSet1 hndA
  have hndB2 : netB2.Nodup := nodup_netSet1 hndB1
  have hndB3 : netB3.Nodup := nodup_netSet1 hndB2
  have hndB : netB.Nodup := nodup_netSet1 hndB3
  have hq2A1 : q2 ∈ netA1 := (mem_netSet0 hnd0).mpr ⟨Ne.symm hq1q2, hq2n0⟩
  have hmemA : ∀ r : Pair, r ∈ netA ↔ (r ∈ net0 ∧ r ≠ q1 ∧ r ≠ q2) := by
    intro r
    rw [hnA, mem_netSet0 hndA1, hnA1, mem_netSet0 hnd0]
    constructor
    · rintro ⟨h1, h2, h3⟩; exact ⟨h3, h2, h1⟩
    · rintro ⟨h1, h2, h3⟩; exact ⟨h3, h2, h1⟩
  have hP3A : P3 ∉ netA := fun hmA => hP3n ((hmem0 P3).mp ((hmemA P3).mp hmA).1).1
  have hP4B1 : P4 ∉ netB1 := by
    rw [hnB1, mem_netSet1]
    rintro (h | h)
    · exact hP34 h.symm
    · exact hP4n ((hmem0 P4).mp ((hmemA P4).mp h).1).1
  have hP5B2 : P5 ∉ netB2 := by
    rw [hnB2, mem_netSet1]
    rintro (h | h)
    · exact hP45 h.symm
    · rw [hnB1, mem_netSet1] at h
      rcases h with h | h
      · exact hP35 h.symm
      · exact hP5n ((hmem0 P5).mp ((hmemA P5).mp h).1).1
  have hP6B3 : P6 ∉ netB3 := by
    rw [hnB3, mem_netSet1]
    rintro (h | h)
    · exact hP56 h.symm
    · rw [hnB2, mem_netSet1] at h
      rcases h with h | h
      · exact hP46 h.symm
      · rw [hnB1, mem_netSet1] at h
        rcases h with h | h
        · exact hP36 h.symm
        · exact hP6n ((hmem0 P6).mp ((hmemA P6).mp h).1).1
  have hmemB : ∀ r : Pair,
      r ∈ netB ↔ r = P6 ∨ r = P5 ∨ r = P4 ∨ r = P3 ∨
        (r ∈ st.net ∧ (reg.length = 2 → r ≠ p) ∧ r ≠ q1 ∧ r ≠ q2) := by
    intro r
    rw [hnB, mem_netSet1, hnB3, mem_netSet1, hnB2, mem_netSet1, hnB1, mem_netSet1,
      hmemA r, hmem0 r]
    simp only [and_assoc]
  -- the two registry pops and the slot they name
  have hrne : reg ≠ [] := by
    intro h; rw [h] at hreg; simp at hreg
  have hr1ne : reg.dropLast ≠ [] := by
    intro h
    have h2 := List.length_dropLast reg
    rw [h] at h2
    simp at h2
    omega
  have hpop1m : reg.getLast?.getD 0 ∈ reg := lastD_mem hrne
  have hpop2m : reg.dropLast.getLast?.getD 0 ∈ reg :=
    (List.dropLast_sublist reg).subset (lastD_mem hr1ne)
  obtain ⟨hpo1a, hpo1b⟩ := halign _ hpop1m
  obtain ⟨hpo2a, hpo2b⟩ := halign _ hpop2m
  set si1 := (sortPair (reg.getLast?.getD 0) (reg.dropLast.getLast?.getD 0)).1
    with hsi1
  have hsi1m : si1 = reg.getLast?.getD 0 ∨ si1 = reg.dropLast.getLast?.getD 0 := by
    rw [hsi1]; exact sortPair_fst_mem _ _
  have hsi1A : si1 % 2 = 0 := by rcases hsi1m with h | h <;> rw [h] <;> assumption
  have hsi1B : si1 + 1 < st.stubs.length := by
    rcases hsi1m with h | h <;> rw [h] <;> assumption
  -- the stub-list writes (the source writes slot si1 twice, then e1i, e2i)
  set stubs1 := stubsWrite st.stubs si1 P3 with hst1
  set stubs2 := stubsWrite stubs1 si1 P4 with hst2
  set stubs3 := stubsWrite stubs2 (2 * ch.1) P5 with hst3
  set stubs4 := stubsWrite stubs3 (2 * ch.2) P6 with hst4
  have hlen1 : stubs1.length = st.stubs.length := length_stubsWrite _ _ _
  have hlen2 : stubs2.length = st.stubs.length := by
    rw [hst2, length_stubsWrite, hlen1]
  have hlen3 : stubs3.length = st.stubs.length := by
    rw [hst3, length_stubsWrite, hlen2]
  have hlen4 : stubs4.length = st.stubs.length := by
    rw [hst4, length_stubsWrite, hlen3]
  have hsieq : si1 = 2 * (si1 / 2) := by omega
  have hP3idem : sortPair P3.1 P3.2 = P3 := by rw [hP3]; exact sortPair_idem _ _
  have hP4idem : sortPair P4.1 P4.2 = P4 := by rw [hP4]; exact sortPair_idem _ _
  have hP5idem : sortPair P5.1 P5.2 = P5 := by rw [hP5]; exact sortPair_idem _ _
  have hP6idem : sortPair P6.1 P6.2 = P6 := by rw [hP6]; exact sortPair_idem _ _
  have hw1 : ∀ s, slotPair stubs1 s =
      if s = si1 / 2 then P3 else slotPair st.stubs s := by
    intro s
    have h := slotPair_stubsWrite st.stubs (si1 / 2) P3 s (by omega)
    rw [hP3idem] at h
    rw [hst1, show stubsWrite st.stubs si1 P3
      = stubsWrite st.stubs (2 * (si1 / 2)) P3 from by rw [← hsieq]]
    exact h
  have hw2 : ∀ s, slotPair stubs2 s =
      if s = si1 / 2 then P4 else slotPair st.stubs s := by
    intro s
    have h := slotPair_stubsWrite stubs1 (si1 / 2) P4 s (by omega)
    rw [hP4idem] at h
    rw [hst2, show stubsWrite stubs1 si1 P4
      = stubsWrite stubs1 (2 * (si1 / 2)) P4 from by rw [← hsieq]]
    rw [h, hw1 s]
    by_cases hs : s = si1 / 2
    · rw [if_pos hs, if_pos hs]
    · rw [if_neg hs, if_neg hs, if_neg hs]
  have hw3 : ∀ s, slotPair stubs3 s =
      if s = ch.1 then P5 else slotPair stubs2 s := by
    intro s
    have h := slotPair_stubsWrite stubs2 ch.1 P5 s (by omega)
    rw [hP5idem] at h
    rw [hst3]
    exact h
  have hw4 : ∀ s, slotPair stubs4 s =
      if s = ch.2 then P6 else slotPair stubs3 s := by
    intro s
    have h := slotPair_stubsWrite stubs3 ch.2 P6 s (by omega)
    rw [hP6idem] at h
    rw [hst4]
    exact h
  have hw : ∀ s, slotPair stubs4 s =
      if s = ch.2 then P6
      else if s = ch.1 then P5
      else if s = si1 / 2 then P4
      else slotPair st.stubs s := by
    intro s
    rw [hw4 s, hw3 s, hw2 s]
  have hnotold : ∀ u r, u < st.stubs.length / 2 → slotPair st.stubs u = r →
      r ∉ multi → (r = P4 ∨ r = P5 ∨ r = P6) → False := by
    intro u r hu hsl hrm hr
    rcases hK u hu with hcase | hcase | hcase
    · rw [hsl] at hcase
      rcases hr with rfl | rfl | rfl <;> omega
    · rw [hsl] at hcase
      exact hrm hcase
    · rw [hsl] at hcase
      rcases hr with rfl | rfl | rfl
      · exact hP4n hcase
      · exact hP5n hcase
      · exact hP6n hcase
  refine ⟨⟨hndB, ?_, ?_, ?_⟩, hlen4, rfl, ?_, ?_, ?_, ?_, ?_, ?_, ?_, ?_, ?_, ?_, ?_⟩
  · -- sortedness
    intro r hr
    rcases (hmemB r).mp hr with rfl | rfl | rfl | rfl | ⟨hmem, _, _, _⟩
    · exact hP6lt
    · exact hP5lt
    · exact hP4lt
    · exact hP3lt
    · exact hsort r hmem
  · -- slot invariant
    intro s hs
    rw [hlen4] at hs
    rw [hw s]
    by_cases hs2c : s = ch.2
    · rw [if_pos hs2c]
      exact Or.inr (Or.inr ((hmemB P6).mpr (Or.inl rfl)))
    · rw [if_neg hs2c]
      by_cases hs1c : s = ch.1
      · rw [if_pos hs1c]
        exact Or.inr (Or.inr ((hmemB P5).mpr (Or.inr (Or.inl rfl))))
      · rw [if_neg hs1c]
        by_cases hs0c : s = si1 / 2
        · rw [if_pos hs0c]
          exact Or.inr (Or.inr ((hmemB P4).mpr (Or.inr (Or.inr (Or.inl rfl)))))
        · rw [if_neg hs0c]
          rcases hK s hs with hcase | hcase | hcase
          · exact Or.inl hcase
          · exact Or.inr (Or.inl hcase)
          · by_cases hrp : slotPair st.stubs s = p
            · exact Or.inr (Or.inl (by rw [hrp]; exact hpm))
            · refine Or.inr (Or.inr ((hmemB _).mpr (Or.inr (Or.inr (Or.inr (Or.inr
                ⟨hcase, fun _ => hrp, ?_, ?_⟩))))))
              · intro heq1
                exact hs1c (hU s hs ch.1 hx (by rw [heq1, hslotx])
                  (by rw [heq1]; omega) (by rw [heq1]; exact hq1m))
              · intro heq2
                exact hs2c (hU s hs ch.2 hy (by rw [heq2, hsloty])
                  (by rw [heq2]; omega) (by rw [heq2]; exact hq2m))
  · -- uniqueness of simple committed slots
    intro s hs t ht heq hdist hnm
    rw [hlen4] at hs ht
    rw [hw s] at heq hdist hnm
    rw [hw t] at heq
    by_cases hs2c : s = ch.2
    · rw [if_pos hs2c] at heq hdist hnm
      by_cases ht2c : t = ch.2
      · omega
      · rw [if_neg ht2c] at heq
        by_cases ht1c : t = ch.1
        · rw [if_pos ht1c] at heq
          exact absurd heq (Ne.symm hP56)
        · rw [if_neg ht1c] at heq
          by_cases ht0c : t = si1 / 2
          · rw [if_pos ht0c] at heq
            exact absurd heq (Ne.symm hP46)
          · rw [if_neg ht0c] at heq
            exact (hnotold t P6 ht heq.symm hnm (Or.inr (Or.inr rfl))).elim
    · rw [if_neg hs2c] at heq hdist hnm
      by_cases hs1c : s = ch.1
      · rw [if_pos hs1c] at heq hdist hnm
        by_cases ht2c : t = ch.2
        · rw [if_pos ht2c] at heq
          exact absurd heq hP56
        · rw [if_neg ht2c] at heq
          by_cases ht1c : t = ch.1
          · omega
          · rw [if_neg ht1c] at heq
            by_cases ht0c : t = si1 / 2
            · rw [if_pos ht0c] at heq
              exact absurd heq (Ne.symm hP45)
            · rw [if_neg ht0c] at heq
              exact (hnotold t P5 ht heq.symm hnm (Or.inr (Or.inl rfl))).elim
      · rw [if_neg hs1c] at heq hdist hnm
        by_cases hs0c : s = si1 / 2
        · rw [if_pos hs0c] at heq hdist hnm
          by_cases ht2c : t = ch.2
          · rw [if_pos ht2c] at heq
            exact absurd heq hP46
          · rw [if_neg ht2c] at heq
            by_cases ht1c : t = ch.1
            · rw [if_pos ht1c] at heq
              exact absurd heq hP45
            · rw [if_neg ht1c] at heq
              by_cases ht0c : t = si1 / 2
              · omega
              · rw [if_neg ht0c] at heq
                exact (hnotold t P4 ht heq.symm hnm (Or.inl rfl)).elim
        · rw [if_neg hs0c] at heq hdist hnm
          by_cases ht2c : t = ch.2
          · rw [if_pos ht2c] at heq
            rw [heq] at hnm
            exact (hnotold s P6 hs heq hnm (Or.inr (Or.inr rfl))).elim
          · rw [if_neg ht2c] at heq
            by_cases ht1c : t = ch.1
            · rw [if_pos ht1c] at heq
              rw [heq] at hnm
              exact (hnotold s P5 hs heq hnm (Or.inr (Or.inl rfl))).elim
            · rw [if_neg ht1c] at heq
              by_cases ht0c : t = si1 / 2
              · rw [if_pos ht0c] at heq
                rw [heq] at hnm
                exact (hnotold s P4 hs heq hnm (Or.inl rfl)).elim
              · rw [if_neg ht0c] at heq
                exact hU s hs t ht heq hdist hnm
  · -- edge count
    show netB.length + (if reg.length = 2 then 1 else 0) = st.net.length + 2
    have hl0 : net0.length + (if reg.length = 2 then 1 else 0) = st.net.length := by
      rw [hnet0]
      by_cases hl : reg.length = 2
      · rw [if_pos hl, if_pos hl]
        exact length_netSet0_mem hpnet
      · rw [if_neg hl, if_neg hl]
        omega
    have hlA1 : netA1.length + 1 = net0.length := length_netSet0_mem hq1n0
    have hlA : netA.length + 1 = netA1.length := length_netSet0_mem hq2A1
    have hlB1 : netB1.length = netA.length + 1 := length_netSet1_not_mem hP3A
    have hlB2 : netB2.length = netB1.length + 1 := length_netSet1_not_mem hP4B1
    have hlB3 : netB3.length = netB2.length + 1 := length_netSet1_not_mem hP5B2
    have hlB : netB.length = netB3.length + 1 := length_netSet1_not_mem hP6B3
    omega
  · -- degree accounting
    intro v
    show deg netB v + (if reg.length = 2 then inc v p else 0)
      = deg st.net v + 2 * inc v p
    have hdeg0 : deg net0 v + (if reg.length = 2 then inc v p else 0)
        = deg st.net v := by
      rw [hnet0]
      by_cases hl : reg.length = 2
      · rw [if_pos hl, if_pos hl]
        exact deg_netSet0_mem hnd hpnet (by omega) v
      · rw [if_neg hl, if_neg hl]
        omega
    have hd1 : deg netA1 v + inc v q1 = deg net0 v :=
      deg_netSet0_mem hnd0 hq1n0 (by omega) v
    have hd2 : deg netA v + inc v q2 = deg netA1 v :=
      deg_netSet0_mem hndA1 hq2A1 (by omega) v
    have hd3 : deg netB1 v = deg netA v + inc v P3 :=
      deg_netSet1_not_mem hP3A (by omega) v
    have hd4 : deg netB2 v = deg netB1 v + inc v P4 :=
      deg_netSet1_not_mem hP4B1 (by omega) v
    have hd5 : deg netB3 v = deg netB2 v + inc v P5 :=
      deg_netSet1_not_mem hP5B2 (by omega) v
    have hd6 : deg netB v = deg netB3 v + inc v P6 :=
      deg_netSet1_not_mem hP6B3 (by omega) v
    have hiq1 : inc v q1 = (if q1.1 = v then 1 else 0) + (if q1.2 = v then 1 else 0) :=
      rfl
    have hiq2 : inc v q2 = (if q2.1 = v then 1 else 0) + (if q2.2 = v then 1 else 0) :=
      rfl
    have hip : inc v p = (if p.1 = v then 1 else 0) + (if p.2 = v then 1 else 0) := rfl
    have hiP3 : inc v P3 = (if p.1 = v then 1 else 0) + (if q1.1 = v then 1 else 0) := by
      rw [hP3, inc_sortPair]
    have hiP4 : inc v P4 = (if p.2 = v then 1 else 0) + (if q1.2 = v then 1 else 0) := by
      rw [hP4, inc_sortPair]
    have hiP5 : inc v P5 = (if p.1 = v then 1 else 0) + (if q2.1 = v then 1 else 0) := by
      rw [hP5, inc_sortPair]
    have hiP6 : inc v P6 = (if p.2 = v then 1 else 0) + (if q2.2 = v then 1 else 0) := by
      rw [hP6, inc_sortPair]
    omega
  · -- other known multi-edges keep their committed edge
    intro q hq hqp hqnet
    show q ∈ netB
    refine (hmemB q).mpr (Or.inr (Or.inr (Or.inr (Or.inr
      ⟨hqnet, fun _ => hqp, ?_, ?_⟩))))
    · rintro rfl; exact hq1m hq
    · rintro rfl; exact hq2m hq
  · -- base edge kept while the registry is longer than 2
    intro hl
    show p ∈ netB
    exact (hmemB p).mpr (Or.inr (Or.inr (Or.inr (Or.inr
      ⟨hpnet, fun hc => absurd hc hl, hpq1, hpq2⟩))))
  · -- base edge removed when the registry length is exactly 2
    intro hl
    show p ∉ netB
    intro hmem
    rcases (hmemB p).mp hmem with h | h | h | h | ⟨-, h2, -, -⟩
    · exact hpP6 h
    · exact hpP5 h
    · exact hpP4 h
    · exact hpP3 h
    · exact h2 hl rfl
  · -- first sampled edge removed
    rw [netGet_eq_zero_iff]
    intro hmem
    rcases (hmemB q1).mp hmem with h | h | h | h | ⟨-, -, h2, -⟩
    · exact hq1P6 h
    · exact hq1P5 h
    · exact hq1P4 h
    · exact hq1P3 h
    · exact h2 rfl
  · -- second sampled edge removed
    rw [netGet_eq_zero_iff]
    intro hmem
    rcases (hmemB q2).mp hmem with h | h | h | h | ⟨-, -, -, h2⟩
    · exact hq2P6 h
    · exact hq2P5 h
    · exact hq2P4 h
    · exact hq2P3 h
    · exact h2 rfl
  · exact netGet_eq_one_iff.mpr ((hmemB P3).mpr (Or.inr (Or.inr (Or.inr (Or.inl rfl)))))
  · exact netGet_eq_one_iff.mpr ((hmemB P4).mpr (Or.inr (Or.inr (Or.inl rfl))))
  · exact netGet_eq_one_iff.mpr ((hmemB P5).mpr (Or.inr (Or.inl rfl)))
  · exact netGet_eq_one_iff.mpr ((hmemB P6).mpr (Or.inl rfl))

end Pymnet

namespace Pymnet

/-! ### The multi-edge eliminator: folding the rounds of one pair -/

theorem runMultiRounds_spec {multi : List Pair} {p : Pair} :
    ∀ (r : Nat) (reg : List Nat) (cs : List Choice) (st st' : RWState)
      (reg' : List Nat) (cs' : List Choice),
    Inv multi st → p ∈ multi → p.1 < p.2 → (1 ≤ r → p ∈ st.net) →
    2 * r ≤ reg.length →
    (∀ i ∈ reg, i % 2 = 0 ∧ i + 1 < st.stubs.length) →
    runMultiRounds multi p r reg cs st = .ok (st', reg', cs') →
    Inv multi st' ∧ st'.stubs.length = st.stubs.length ∧
      reg'.length + 2 * r = reg.length ∧
      st'.net.length + (if reg.length = 2 * r ∧ 1 ≤ r then 1 else 0)
        = st.net.length + 2 * r ∧
      (∀ v, deg st'.net v + (if reg.length = 2 * r ∧ 1 ≤ r then inc v p else 0)
          = deg st.net v + 2 * r * inc v p) ∧
      (∀ q ∈ multi, q ≠ p → q ∈ st.net → q ∈ st'.net) := by
  intro r
  induction r with
  | zero =>
    intro reg cs st st' reg' cs' hInv hpm hplt hpnet hlen halign hok
    simp only [runMultiRounds, Except.ok.injEq, Prod.mk.injEq] at hok
    obtain ⟨rfl, rfl, rfl⟩ := hok
    refine ⟨hInv, rfl, by omega, ?_, ?_, fun q _ _ hq => hq⟩
    · rw [if_neg (by omega : ¬ (reg.length = 2 * 0 ∧ 1 ≤ 0))]
    · intro v
      rw [if_neg (by omega : ¬ (reg.length = 2 * 0 ∧ 1 ≤ 0))]
      omega
  | succ r ih =>
    intro reg cs st st' reg' cs' hInv hpm hplt hpnet hlen halign hok
    match cs with
    | [] => simp [runMultiRounds] at hok
    | ch :: cs2 =>
      rw [runMultiRounds] at hok
      cases hmr : multiRound multi p reg ch st with
      | error e => rw [hmr] at hok; cases hok
      | ok out =>
        obtain ⟨st1, reg1⟩ := out
        rw [hmr] at hok
        have hreg2 : 2 ≤ reg.length := by omega
        obtain ⟨hInv1, hstl1, hreg1eq, hnl1, hdeg1, hsub1, hkeep1, hrem1,
          -, -, -, -, -, -⟩ :=
          multiRound_spec hInv hpm hplt (hpnet (by omega)) hreg2 halign hmr
        have hreg1len : reg1.length + 2 = reg.length := by
          rw [hreg1eq, List.length_dropLast, List.length_dropLast]
          omega
        have halign1 : ∀ i ∈ reg1, i % 2 = 0 ∧ i + 1 < st1.stubs.length := by
          intro i hi
          rw [hreg1eq] at hi
          have hmem : i ∈ reg :=
            (List.dropLast_sublist reg).subset
              ((List.dropLast_sublist reg.dropLast).subset hi)
          obtain ⟨h1, h2⟩ := halign i hmem
          exact ⟨h1, by omega⟩
        have hpnet1 : 1 ≤ r → p ∈ st1.net := by
          intro hr
          exact hkeep1 (by omega)
        obtain ⟨hInv2, hstl2, hreg2eq, hnl2, hdeg2, hsub2⟩ :=
          ih reg1 cs2 st1 st' reg' cs' hInv1 hpm hplt hpnet1 (by omega) halign1 hok
        refine ⟨hInv2, by omega, by omega, ?_, ?_, ?_⟩
        · by_cases hc1 : reg.length = 2
          · have hr0 : r = 0 := by omega
            subst hr0
            rw [if_pos hc1] at hnl1
            rw [if_neg (by omega)] at hnl2
            rw [if_pos (by omega)]
            omega
          · rw [if_neg hc1] at hnl1
            by_cases hc2 : reg.length = 2 * (r + 1)
            · rw [if_pos ⟨by omega, by omega⟩] at hnl2
              rw [if_pos ⟨hc2, by omega⟩]
              omega
            · rw [if_neg (fun hcc => hc2 (by
                obtain ⟨hca, hcb⟩ := hcc
                omega))] at hnl2
              rw [if_neg (fun hcc => hc2 hcc.1)]
              omega
        · intro v
          have h1 := hdeg1 v
          have h2 := hdeg2 v
          by_cases hv1 : p.1 = v <;> by_cases hv2 : p.2 = v
          · exact ((by omega : False)).elim
          · have hinc : inc v p = 1 := by
              unfold inc
              rw [if_pos hv1, if_neg hv2]
            rw [hinc] at h1 h2 ⊢
            by_cases hc1 : reg.length = 2
            · have hr0 : r = 0 := by omega
              subst hr0
              rw [if_pos hc1] at h1
              rw [if_neg (by omega)] at h2
              rw [if_pos (by omega)]
              omega
            · rw [if_neg hc1] at h1
              by_cases hc2 : reg.length = 2 * (r + 1)
              · rw [if_pos ⟨by omega, by omega⟩] at h2
                rw [if_pos ⟨hc2, by omega⟩]
                omega
              · rw [if_neg (fun hcc => hc2 (by
                  obtain ⟨hca, hcb⟩ := hcc
                  omega))] at h2
                rw [if_neg (fun hcc => hc2 hcc.1)]
                omega
          · have hinc : inc v p = 1 := by
              unfold inc
              rw [if_neg hv1, if_pos hv2]
            rw [hinc] at h1 h2 ⊢
            by_cases hc1 : reg.length = 2
            · have hr0 : r = 0 := by omega
              subst hr0
              rw [if_pos hc1] at h1
              rw [if_neg (by omega)] at h2
              rw [if_pos (by omega)]
              omega
            · rw [if_neg hc1] at h1
              by_cases hc2 : reg.length = 2 * (r + 1)
              · rw [if_pos ⟨by omega, by omega⟩] at h2
                rw [if_pos ⟨hc2, by omega⟩]
                omega
              · rw [if_neg (fun hcc => hc2 (by
                  obtain ⟨hca, hcb⟩ := hcc
                  omega))] at h2
                rw [if_neg (fun hcc => hc2 hcc.1)]
                omega
          · have hinc : inc v p = 0 := by
              unfold inc
              rw [if_neg hv1, if_neg hv2]
            rw [hinc] at h1 h2 ⊢
            by_cases hc1 : reg.length = 2
            · have hr0 : r = 0 := by omega
              subst hr0
              rw [if_pos hc1] at h1
              rw [if_neg (by omega)] at h2
              rw [if_pos (by omega)]
              omega
            · rw [if_neg hc1] at h1
              by_cases hc2 : reg.length = 2 * (r + 1)
              · rw [if_pos ⟨by omega, by omega⟩] at h2
                rw [if_pos ⟨hc2, by omega⟩]
                omega
              · rw [if_neg (fun hcc => hc2 (by
                  obtain ⟨hca, hcb⟩ := hcc
                  omega))] at h2
                rw [if_neg (fun hcc => hc2 hcc.1)]
                omega
        · exact fun q hq hqp hqnet => hsub2 q hq hqp (hsub1 q hq hqp hqnet)

end Pymnet

namespace Pymnet

/-! ### The in-loop asserts of the multi-edge eliminator never fire -/

theorem multiRound_no_assert {multi : List Pair} {p : Pair} {reg : List Nat}
    {ch : Choice} {st : RWState} (hInv : Inv multi st) (hpm : p ∈ multi) :
    multiRound multi p reg ch st ≠ .error .assertionFailed := by
  obtain ⟨hnd, hsort, hK, hU⟩ := hInv
  simp only [multiRound]
  set a := nth st.stubs (2 * ch.1) with ha
  set b := nth st.stubs (2 * ch.1 + 1) with hb
  set d := nth st.stubs (2 * ch.2) with hd
  set e0 := nth st.stubs (2 * ch.2 + 1) with he0
  set q1 := sortPair a b with hq1
  set q2 := sortPair d e0 with hq2
  split
  case isFalse => simp
  case isTrue hcond =>
  obtain ⟨hxy, hx, hy, hndc, hq1m, hq2m, h3, h4, h5, h6⟩ := hcond
  simp only [List.nodup_cons, List.mem_cons, List.mem_singleton, List.not_mem_nil,
    or_false, not_or, List.nodup_nil, and_true] at hndc
  obtain ⟨⟨h12, h1a, h1b, h1d, h1e⟩, ⟨h2a, h2b, h2d, h2e⟩, ⟨hab, had, hae⟩,
    ⟨hbd, hbe⟩, hde, -⟩ := hndc
  have hslotx : slotPair st.stubs ch.1 = q1 := rfl
  have hsloty : slotPair st.stubs ch.2 = q2 := rfl
  have hq1net : q1 ∈ st.net := by
    rcases hK ch.1 hx with hcase | hcase | hcase
    · rw [hslotx, hq1] at hcase
      exact absurd (sortPair_self_iff.mp hcase) hab
    · rw [hslotx] at hcase
      exact absurd hcase hq1m
    · rw [hslotx] at hcase
      exact hcase
  have hq2net : q2 ∈ st.net := by
    rcases hK ch.2 hy with hcase | hcase | hcase
    · rw [hsloty, hq2] at hcase
      exact absurd (sortPair_self_iff.mp hcase) hde
    · rw [hsloty] at hcase
      exact absurd hcase hq2m
    · rw [hsloty] at hcase
      exact hcase
  have hq1p : q1 ≠ p := by rintro rfl; exact hq1m hpm
  have hq2p : q2 ≠ p := by rintro rfl; exact hq2m hpm
  set net0 := if reg.length = 2 then netSet0 st.net p else st.net with hnet0
  have hg1 : netGet net0 q1 = 1 := by
    rw [netGet_eq_one_iff, hnet0]
    by_cases hl : reg.length = 2
    · rw [if_pos hl]
      exact (mem_netSet0 hnd).mpr ⟨hq1p, hq1net⟩
    · rw [if_neg hl]
      exact hq1net
  have hg2 : netGet net0 q2 = 1 := by
    rw [netGet_eq_one_iff, hnet0]
    by_cases hl : reg.length = 2
    · rw [if_pos hl]
      exact (mem_netSet0 hnd).mpr ⟨hq2p, hq2net⟩
    · rw [if_neg hl]
      exact hq2net
  rw [if_pos hg1, if_pos hg2]
  simp

theorem runMultiRounds_no_assert {multi : List Pair} {p : Pair} :
    ∀ (r : Nat) (reg : List Nat) (cs : List Choice) (st : RWState),
    Inv multi st → p ∈ multi → p.1 < p.2 → (1 ≤ r → p ∈ st.net) →
    2 * r ≤ reg.length →
    (∀ i ∈ reg, i % 2 = 0 ∧ i + 1 < st.stubs.length) →
    runMultiRounds multi p r reg cs st ≠ .error .assertionFailed := by
  intro r
  induction r with
  | zero =>
    intro reg cs st _ _ _ _ _ _
    simp [runMultiRounds]
  | succ r ih =>
    intro reg cs st hInv hpm hplt hpnet hlen halign
    match cs with
    | [] => simp [runMultiRounds]
    | ch :: cs2 =>
      rw [runMultiRounds]
      cases hmr : multiRound multi p reg ch st with
      | error e =>
        intro hcontra
        rw [Except.error.injEq] at hcontra
        subst hcontra
        exact multiRound_no_assert ⟨hInv.1, hInv.2.1, hInv.2.2.1, hInv.2.2.2⟩ hpm hmr
      | ok out =>
        obtain ⟨st1, reg1⟩ := out
        have hreg2 : 2 ≤ reg.length := by omega
        obtain ⟨hInv1, hstl1, hreg1eq, -, -, -, hkeep1, -, -, -, -, -, -, -⟩ :=
          multiRound_spec hInv hpm hplt (hpnet (by omega)) hreg2 halign hmr
        have hreg1len : reg1.length + 2 = reg.length := by
          rw [hreg1eq, List.length_dropLast, List.length_dropLast]
          omega
        have halign1 : ∀ i ∈ reg1, i % 2 = 0 ∧ i + 1 < st1.stubs.length := by
          intro i hi
          rw [hreg1eq] at hi
          have hmem : i ∈ reg :=
            (List.dropLast_sublist reg).subset
              ((List.dropLast_sublist reg.dropLast).subset hi)
          obtain ⟨h1, h2⟩ := halign i hmem
          exact ⟨h1, by omega⟩
        exact ih reg1 cs2 st1 hInv1 hpm hplt (fun hr => hkeep1 (by omega))
          (by omega) halign1

end Pymnet

namespace Pymnet

/-! ### The multi-edge elimination phase as a whole -/

theorem phase3Go_spec {multi : List Pair} {eti : List (Pair × List Nat)} :
    ∀ (rest : List Pair) (cs : List Choice) (st st' : RWState) (cs' : List Choice),
    Inv multi st →
    rest.Nodup →
    (∀ q ∈ rest, q ∈ multi) →
    (∀ q ∈ rest, q.1 < q.2) →
    (∀ q ∈ rest, q ∈ st.net) →
    (∀ q ∈ rest, 2 ≤ (alGet eti q).length) →
    (∀ q ∈ rest, ∀ i ∈ alGet eti q, i % 2 = 0 ∧ i + 1 < st.stubs.length) →
    phase3Go multi eti rest cs st = .ok (st', cs') →
    Inv multi st' ∧ st'.stubs.length = st.stubs.length ∧
      st'.net.length = st.net.length + multiSumAll eti rest ∧
      (∀ v, deg st'.net v = deg st.net v + multiSum eti rest v) := by
  intro rest
  induction rest with
  | nil =>
    intro cs st st' cs' hInv _ _ _ _ _ _ hok
    simp only [phase3Go, Except.ok.injEq, Prod.mk.injEq] at hok
    obtain ⟨rfl, rfl⟩ := hok
    exact ⟨hInv, rfl, by rw [multiSumAll_nil]; omega, fun v => by rw [multiSum_nil]; omega⟩
  | cons p rest2 ih =>
    intro cs st st' cs' hInv hnd hmulti hlt hnet hreglen halign hok
    rw [phase3Go] at hok
    cases hrm : runMultiRounds multi p ((alGet eti p).length / 2) (alGet eti p) cs st with
    | error e => rw [hrm] at hok; cases hok
    | ok out =>
      obtain ⟨st1, reg1, cs1⟩ := out
      rw [hrm] at hok
      have hm2 : 2 ≤ (alGet eti p).length := hreglen p (List.mem_cons_self _ _)
      have hr1 : 1 ≤ (alGet eti p).length / 2 := by omega
      obtain ⟨hInv1, hstl1, -, hnl1, hdeg1, hsub1⟩ :=
        runMultiRounds_spec ((alGet eti p).length / 2) (alGet eti p) cs st st1
          reg1 cs1 hInv (hmulti p (List.mem_cons_self _ _))
          (hlt p (List.mem_cons_self _ _))
          (fun _ => hnet p (List.mem_cons_self _ _)) (by omega)
          (halign p (List.mem_cons_self _ _)) hrm
      have hpnot : p ∉ rest2 := (List.nodup_cons.mp hnd).1
      obtain ⟨hInv2, hstl2, hnl2, hdeg2⟩ :=
        ih cs1 st1 st' cs' hInv1 (List.nodup_cons.mp hnd).2
          (fun q hq => hmulti q (List.mem_cons_of_mem _ hq))
          (fun q hq => hlt q (List.mem_cons_of_mem _ hq))
          (fun q hq => hsub1 q (hmulti q (List.mem_cons_of_mem _ hq))
            (fun h => hpnot (h ▸ hq)) (hnet q (List.mem_cons_of_mem _ hq)))
          (fun q hq => hreglen q (List.mem_cons_of_mem _ hq))
          (fun q hq i hi => by
            obtain ⟨h1, h2⟩ := halign q (List.mem_cons_of_mem _ hq) i hi
            exact ⟨h1, by omega⟩)
          hok
      have hnl1' : st1.net.length = st.net.length + ((alGet eti p).length - 1) := by
        by_cases hpar : (alGet eti p).length = 2 * ((alGet eti p).length / 2)
        · rw [if_pos ⟨hpar, hr1⟩] at hnl1
          omega
        · rw [if_neg (fun hc => hpar hc.1)] at hnl1
          omega
      refine ⟨hInv2, by omega, ?_, ?_⟩
      · rw [multiSumAll_cons]
        omega
      · intro v
        have h1 := hdeg1 v
        have h2 := hdeg2 v
        rw [multiSum_cons]
        have hincle : inc v p ≤ 1 := by
          have := hlt p (List.mem_cons_self _ _)
          unfold inc
          split <;> split <;> omega
        rcases Nat.le_one_iff_eq_zero_or_eq_one.mp hincle with hinc | hinc <;>
          by_cases hpar : (alGet eti p).length = 2 * ((alGet eti p).length / 2)
        · rw [if_pos ⟨hpar, hr1⟩] at h1
          simp only [hinc, Nat.mul_zero, Nat.add_zero] at h1 ⊢
          omega
        · rw [if_neg (fun hc => hpar hc.1)] at h1
          simp only [hinc, Nat.mul_zero, Nat.add_zero] at h1 ⊢
          omega
        · rw [if_pos ⟨hpar, hr1⟩] at h1
          simp only [hinc, Nat.mul_one] at h1 ⊢
          omega
        · rw [if_neg (fun hc => hpar hc.1)] at h1
          simp only [hinc, Nat.mul_one] at h1 ⊢
          omega

theorem phase3Go_no_assert {multi : List Pair} {eti : List (Pair × List Nat)} :
    ∀ (rest : List Pair) (cs : List Choice) (st : RWState),
    Inv multi st →
    rest.Nodup →
    (∀ q ∈ rest, q ∈ multi) →
    (∀ q ∈ rest, q.1 < q.2) →
    (∀ q ∈ rest, q ∈ st.net) →
    (∀ q ∈ rest, 2 ≤ (alGet eti q).length) →
    (∀ q ∈ rest, ∀ i ∈ alGet eti q, i % 2 = 0 ∧ i + 1 < st.stubs.length) →
    phase3Go multi eti rest cs st ≠ .error .assertionFailed := by
  intro rest
  induction rest with
  | nil =>
    intro cs st _ _ _ _ _ _ _
    simp [phase3Go]
  | cons p rest2 ih =>
    intro cs st hInv hnd hmulti hlt hnet hreglen halign
    rw [phase3Go]
    cases hrm : runMultiRounds multi p ((alGet eti p).length / 2) (alGet eti p) cs st with
    | error e =>
      intro hcontra
      rw [Except.error.injEq] at hcontra
      subst hcontra
      exact runMultiRounds_no_assert ((alGet eti p).length / 2) (alGet eti p) cs st
        hInv (hmulti p (List.mem_cons_self _ _)) (hlt p (List.mem_cons_self _ _))
        (fun _ => hnet p (List.mem_cons_self _ _))
        (by have := hreglen p (List.mem_cons_self _ _); omega)
        (halign p (List.mem_cons_self _ _)) hrm
    | ok out =>
      obtain ⟨st1, reg1, cs1⟩ := out
      have hm2 : 2 ≤ (alGet eti p).length := hreglen p (List.mem_cons_self _ _)
      obtain ⟨hInv1, hstl1, -, -, -, hsub1⟩ :=
        runMultiRounds_spec ((alGet eti p).length / 2) (alGet eti p) cs st st1
          reg1 cs1 hInv (hmulti p (List.mem_cons_self _ _))
          (hlt p (List.mem_cons_self _ _))
          (fun _ => hnet p (List.mem_cons_self _ _)) (by omega)
          (halign p (List.mem_cons_self _ _)) hrm
      have hpnot : p ∉ rest2 := (List.nodup_cons.mp hnd).1
      exact ih cs1 st1 hInv1 (List.nodup_cons.mp hnd).2
        (fun q hq => hmulti q (List.mem_cons_of_mem _ hq))
        (fun q hq => hlt q (List.mem_cons_of_mem _ hq))
        (fun q hq => hsub1 q (hmulti q (List.mem_cons_of_mem _ hq))
          (fun h => hpnot (h ▸ hq)) (hnet q (List.mem_cons_of_mem _ hq)))
        (fun q hq => hreglen q (List.mem_cons_of_mem _ hq))
        (fun q hq i hi => by
          obtain ⟨h1, h2⟩ := halign q (List.mem_cons_of_mem _ hq) i hi
          exact ⟨h1, by omega⟩)

end Pymnet

namespace Pymnet

/-! ### The self-loop eliminator has no `assert`; its run never reports one -/

theorem selfRewire_no_assert (multi : List Pair) (node si : Nat) (ch : Choice)
    (st : RWState) : selfRewire multi node si ch st ≠ .error .assertionFailed := by
  simp only [selfRewire]
  split <;> simp

theorem runSelfOccs_no_assert {multi : List Pair} {node : Nat} :
    ∀ (sis : List Nat) (cs : List Choice) (st : RWState),
    runSelfOccs multi node sis cs st ≠ .error .assertionFailed := by
  intro sis
  induction sis with
  | nil => intro cs st; simp [runSelfOccs]
  | cons si sis ih =>
    intro cs st
    match cs with
    | [] => simp [runSelfOccs]
    | ch :: cs2 =>
      rw [runSelfOccs]
      cases hsr : selfRewire multi node si ch st with
      | error e =>
        intro hcontra
        rw [Except.error.injEq] at hcontra
        subst hcontra
        exact selfRewire_no_assert multi node si ch st hsr
      | ok st1 => exact ih cs2 st1

theorem phase2Go_no_assert {multi : List Pair} :
    ∀ (entries : List (Nat × List Nat)) (cs : List Choice) (st : RWState),
    phase2Go multi entries cs st ≠ .error .assertionFailed := by
  intro entries
  induction entries with
  | nil => intro cs st; simp [phase2Go]
  | cons entry rest ih =>
    intro cs st
    obtain ⟨node, sis⟩ := entry
    rw [phase2Go]
    cases hro : runSelfOccs multi node sis cs st with
    | error e =>
      intro hcontra
      rw [Except.error.injEq] at hcontra
      subst hcontra
      exact runSelfOccs_no_assert sis cs st hro
    | ok out =>
      obtain ⟨st1, cs1⟩ := out
      exact ih cs1 st1

/-! ### Putting the three phases together -/

/-- Everything a successful run of `single_layer_conf` on the empty network
guarantees: the result is a simple undirected edge list, the stub list keeps
its length, the edge count is half the number of stub positions scanned, and
each node's degree equals its number of occurrences among the scanned stub
positions. -/
theorem run_spec {degs : Degs} {stubs : List Nat} {cs2 cs3 : List Choice}
    {st' : RWState}
    (hok : single_layer_conf [] degs stubs cs2 cs3 = .ok st') :
    weightedSum degs % 2 = 0 ∧
    simpleNet st'.net ∧ st'.stubs.length = stubs.length ∧
    st'.net.length = stubs.length / 2 ∧
    (∀ v, deg st'.net v = posCnt stubs (stubs.length / 2) v) := by
  have H := p1inv_phase1 stubs
  have hInv0 := inv_of_phase1 stubs
  simp only [single_layer_conf] at hok
  split at hok
  case isTrue => cases hok
  case isFalse hpar =>
  have hmultisub : ∀ q ∈ (phase1 [] stubs).multiedges, q ∈ (phase1 [] stubs).net := by
    intro q hq
    obtain ⟨hq1, hq2⟩ := (H.multiMem q).mp hq
    exact (H.netMem q).mpr ⟨hq1, by omega⟩
  cases hp2 : phase2Go (phase1 [] stubs).multiedges (phase1 [] stubs).selfedges cs2
      ⟨(phase1 [] stubs).net, stubs⟩ with
  | error e => rw [hp2] at hok; cases hok
  | ok out2 =>
    obtain ⟨st2, cs2'⟩ := out2
    rw [hp2] at hok
    dsimp only at hok
    have halign2 : ∀ n sis, (n, sis) ∈ (phase1 [] stubs).selfedges →
        ∀ si ∈ sis, si % 2 = 0 ∧
          si + 1 < (RWState.mk (phase1 [] stubs).net stubs).stubs.length := by
      intro n sis hmem si hsi
      obtain ⟨t, ht, hieq, -⟩ := H.selfMem n sis hmem si hsi
      subst hieq
      refine ⟨by omega, ?_⟩
      show 2 * t + 1 < stubs.length
      omega
    obtain ⟨hInv2, hlen2, hnl2, hdeg2, hsub2⟩ :=
      phase2Go_spec (phase1 [] stubs).selfedges cs2 ⟨(phase1 [] stubs).net, stubs⟩
        st2 cs2' hInv0 halign2 hp2
    have hlen2' : st2.stubs.length = stubs.length := hlen2
    have hnl2' : st2.net.length =
        (phase1 [] stubs).net.length + selfTotal (phase1 [] stubs).selfedges := hnl2
    have hdeg2' : ∀ v, deg st2.net v =
        deg (phase1 [] stubs).net v + 2 * selfWeight (phase1 [] stubs).selfedges v :=
      hdeg2
    cases hp3 : phase3Go (phase1 [] stubs).multiedges (phase1 [] stubs).edgetoindex
        (phase1 [] stubs).multiedges cs3 st2 with
    | error e => rw [hp3] at hok; cases hok
    | ok out3 =>
      obtain ⟨st3, cs3'⟩ := out3
      rw [hp3] at hok
      dsimp only at hok
      rw [Except.ok.injEq] at hok
      subst hok
      have hreglen3 : ∀ q ∈ (phase1 [] stubs).multiedges,
          2 ≤ (alGet (phase1 [] stubs).edgetoindex q).length := by
        intro q hq
        rw [H.etiLen q]
        exact ((H.multiMem q).mp hq).2
      have halign3 : ∀ q ∈ (phase1 [] stubs).multiedges,
          ∀ i ∈ alGet (phase1 [] stubs).edgetoindex q,
          i % 2 = 0 ∧ i + 1 < st2.stubs.length := by
        intro q hq i hi
        obtain ⟨t, ht, hieq, -⟩ := H.etiMem q i hi
        subst hieq
        refine ⟨by omega, ?_⟩
        rw [hlen2']
        omega
      obtain ⟨hInv3, hlen3, hnl3, hdeg3⟩ :=
        phase3Go_spec (phase1 [] stubs).multiedges cs3 st2 st3 cs3' hInv2
          H.multiNodup (fun q hq => hq)
          (fun q hq => ((H.multiMem q).mp hq).1)
          (fun q hq => hsub2 q hq (hmultisub q hq))
          hreglen3 halign3 hp3
      refine ⟨by omega, ⟨hInv3.1, hInv3.2.1⟩, by omega, ?_, ?_⟩
      · have := H.lenAcc
        omega
      · intro v
        have h1 := hdeg2' v
        have h2 := hdeg3 v
        have h3 := H.degAcc v
        have h4 := H.selfW v
        omega

/-- No run of `single_layer_conf` ends in a failed `assert` inside the
elimination loops. -/
theorem run_no_assert (degs : Degs) (stubs : List Nat) (cs2 cs3 : List Choice) :
    single_layer_conf [] degs stubs cs2 cs3 ≠ .error .assertionFailed := by
  have H := p1inv_phase1 stubs
  have hInv0 := inv_of_phase1 stubs
  simp only [single_layer_conf]
  split
  case isTrue => simp
  case isFalse hpar =>
  have hmultisub : ∀ q ∈ (phase1 [] stubs).multiedges, q ∈ (phase1 [] stubs).net := by
    intro q hq
    obtain ⟨hq1, hq2⟩ := (H.multiMem q).mp hq
    exact (H.netMem q).mpr ⟨hq1, by omega⟩
  cases hp2 : phase2Go (phase1 [] stubs).multiedges (phase1 [] stubs).selfedges cs2
      ⟨(phase1 [] stubs).net, stubs⟩ with
  | error e =>
    intro hcontra
    rw [Except.error.injEq] at hcontra
    subst hcontra
    exact phase2Go_no_assert (phase1 [] stubs).selfedges cs2
      ⟨(phase1 [] stubs).net, stubs⟩ hp2
  | ok out2 =>
    obtain ⟨st2, cs2'⟩ := out2
    dsimp only
    have halign2 : ∀ n sis, (n, sis) ∈ (phase1 [] stubs).selfedges →
        ∀ si ∈ sis, si % 2 = 0 ∧
          si + 1 < (RWState.mk (phase1 [] stubs).net stubs).stubs.length := by
      intro n sis hmem si hsi
      obtain ⟨t, ht, hieq, -⟩ := H.selfMem n sis hmem si hsi
      subst hieq
      refine ⟨by omega, ?_⟩
      show 2 * t + 1 < stubs.length
      omega
    obtain ⟨hInv2, hlen2, hnl2, hdeg2, hsub2⟩ :=
      phase2Go_spec (phase1 [] stubs).selfedges cs2 ⟨(phase1 [] stubs).net, stubs⟩
        st2 cs2' hInv0 halign2 hp2
    have hlen2' : st2.stubs.length = stubs.length := hlen2
    cases hp3 : phase3Go (phase1 [] stubs).multiedges (phase1 [] stubs).edgetoindex
        (phase1 [] stubs).multiedges cs3 st2 with
    | error e =>
      intro hcontra
      dsimp only at hcontra
      rw [Except.error.injEq] at hcontra
      subst hcontra
      have hreglen3 : ∀ q ∈ (phase1 [] stubs).multiedges,
          2 ≤ (alGet (phase1 [] stubs).edgetoindex q).length := by
        intro q hq
        rw [H.etiLen q]
        exact ((H.multiMem q).mp hq).2
      have halign3 : ∀ q ∈ (phase1 [] stubs).multiedges,
          ∀ i ∈ alGet (phase1 [] stubs).edgetoindex q,
          i % 2 = 0 ∧ i + 1 < st2.stubs.length := by
        intro q hq i hi
        obtain ⟨t, ht, hieq, -⟩ := H.etiMem q i hi
        subst hieq
        refine ⟨by omega, ?_⟩
        rw [hlen2']
        omega
      exact phase3Go_no_assert (phase1 [] stubs).multiedges cs3 st2 hInv2
        H.multiNodup (fun q hq => hq)
        (fun q hq => ((H.multiMem q).mp hq).1)
        (fun q hq => hsub2 q hq (hmultisub q hq))
        hreglen3 halign3 hp3
    | ok out3 =>
      obtain ⟨st3, cs3'⟩ := out3
      simp

end Pymnet

namespace Pymnet

/-! ### Counting stubs: the built list realizes the prescribed degrees -/

theorem length_block (k : Nat) : ∀ (n base : Nat), (block k n base).length = n * k := by
  intro n
  induction n with
  | zero => intro base; simp [block]
  | succ n ih =>
    intro base
    rw [block, List.length_append, List.length_replicate, ih, Nat.succ_mul]
    omega

theorem count_block (k : Nat) (v : Nat) : ∀ (n base : Nat),
    (block k n base).count v = if base ≤ v ∧ v < base + n then k else 0 := by
  intro n
  induction n with
  | zero =>
    intro base
    rw [block, List.count_nil, if_neg (by omega)]
  | succ n ih =>
    intro base
    rw [block, List.count_append, List.count_replicate, ih]
    simp only [beq_iff_eq]
    by_cases hv : base = v
    · rw [if_pos hv, if_neg (by omega), if_pos (by omega)]
      omega
    · rw [if_neg hv]
      by_cases hlo : base + 1 ≤ v ∧ v < base + 1 + n
      · rw [if_pos hlo, if_pos (by omega)]
        omega
      · rw [if_neg hlo, if_neg (by omega)]

theorem length_buildGo : ∀ (degs : Degs) (base : Nat),
    (buildGo degs base).length = weightedSum degs := by
  intro degs
  induction degs with
  | nil => intro base; simp [buildGo, weightedSum]
  | cons kn rest ih =>
    intro base
    obtain ⟨k, num⟩ := kn
    rw [buildGo, List.length_append, length_block, ih]
    simp only [weightedSum, List.map_cons, List.sum_cons]
    rw [Nat.mul_comm]

theorem length_buildStubs (degs : Degs) : (buildStubs degs).length = weightedSum degs :=
  length_buildGo degs 0

theorem count_buildGo (v : Nat) : ∀ (degs : Degs) (base : Nat),
    (buildGo degs base).count v =
      if base ≤ v then prescribedDeg degs (v - base) else 0 := by
  intro degs
  induction degs with
  | nil =>
    intro base
    rw [buildGo, List.count_nil, prescribedDeg]
    split <;> rfl
  | cons kn rest ih =>
    intro base
    obtain ⟨k, num⟩ := kn
    rw [buildGo, List.count_append, count_block, ih, prescribedDeg]
    by_cases h1 : v < base
    · rw [if_neg (by omega), if_neg (by omega), if_neg (by omega)]
    · by_cases h2 : v < base + num
      · rw [if_pos (by omega), if_neg (by omega), if_pos (by omega),
          if_pos (by omega)]
        omega
      · rw [if_neg (by omega), if_pos (by omega), if_pos (by omega),
          if_neg (by omega)]
        have hv : v - base - num = v - (base + num) := by omega
        rw [hv]
        omega

theorem count_buildStubs (degs : Degs) (v : Nat) :
    (buildStubs degs).count v = prescribedDeg degs v := by
  rw [buildStubs, count_buildGo, if_pos (Nat.zero_le v), Nat.sub_zero]

theorem countP_range_nth (v : Nat) : ∀ (l : List Nat),
    (List.range l.length).countP (fun i => nth l i == v) = l.count v := by
  intro l
  induction l with
  | nil => simp
  | cons a l ih =>
    rw [List.length_cons, List.range_succ_eq_map, List.countP_cons, List.countP_map]
    have hco : ((fun i => nth (a :: l) i == v) ∘ Nat.succ) = (fun i => nth l i == v) := by
      funext i
      rfl
    rw [hco, ih, List.count_cons]
    by_cases hav : a = v
    · subst hav
      simp [nth]
    · have hva : ¬ v = a := fun h => hav h.symm
      simp [nth, hav, hva]

theorem posCnt_eq_count {stubs : List Nat} (hev : stubs.length % 2 = 0) (v : Nat) :
    posCnt stubs (stubs.length / 2) v = stubs.count v := by
  unfold posCnt
  have h2 : 2 * (stubs.length / 2) = stubs.length := by omega
  rw [h2, countP_range_nth]

/-! ### prescribedDeg helper facts -/

theorem sumValues_cons (k num : Nat) (rest : Degs) :
    sumValues ((k, num) :: rest) = num + sumValues rest := by
  simp [sumValues]

theorem prescribedDeg_append_zero (num : Nat) (post : Degs) : ∀ (pre : Degs) (v : Nat),
    sumValues pre ≤ v → v < sumValues pre + num →
    prescribedDeg (pre ++ (0, num) :: post) v = 0 := by
  intro pre
  induction pre with
  | nil =>
    intro v hlo hhi
    simp only [sumValues, List.map_nil, List.sum_nil] at hlo hhi
    rw [List.nil_append, prescribedDeg, if_pos (by omega)]
  | cons kn rest ih =>
    intro v hlo hhi
    obtain ⟨k, n⟩ := kn
    rw [sumValues_cons] at hlo hhi
    rw [List.cons_append, prescribedDeg, if_neg (by omega)]
    exact ih (v - n) (by omega) (by omega)

/-! ### `checkLayers` soundness -/

theorem checkLayers_some (n : Nat) : ∀ (l : List Degs),
    checkLayers (some n) l = true → ∀ d ∈ l, sumValues d = n := by
  intro l
  induction l generalizing n with
  | nil => intro _ d hd; cases hd
  | cons d2 rest ih =>
    intro hck d hd
    rw [checkLayers] at hck
    split at hck
    case isTrue heq =>
      rcases List.mem_cons.mp hd with rfl | hd2
      · exact heq
      · rw [ih (sumValues d2) hck d hd2, heq]
    case isFalse => cases hck

theorem checkLayers_none_eq {l : List Degs} (hck : checkLayers none l = true) :
    ∀ d1 ∈ l, ∀ d2 ∈ l, sumValues d1 = sumValues d2 := by
  match l with
  | [] => intro d1 hd1; cases hd1
  | d :: rest =>
    rw [checkLayers] at hck
    have hall := checkLayers_some (sumValues d) rest hck
    intro d1 hd1 d2 hd2
    rcases List.mem_cons.mp hd1 with rfl | hd1' <;>
      rcases List.mem_cons.mp hd2 with rfl | hd2'
    · rfl
    · rw [hall d2 hd2']
    · rw [hall d1 hd1']
    · rw [hall d1 hd1', hall d2 hd2']

end Pymnet

namespace Pymnet

/-! ### The claims -/

/-- C1: for every degree sequence with even weighted sum on which
`single_layer_conf` terminates successfully (the stub list being a shuffle of
the built stubs), each node's degree in the filled target graph equals its
prescribed degree, and twice the edge count equals the sum of degrees. -/
theorem conf_model_degrees_exact (degs : Degs) (stubs : List Nat)
    (cs2 cs3 : List Choice) (st' : RWState)
    (hperm : stubs.Perm (buildStubs degs))
    (hok : single_layer_conf [] degs stubs cs2 cs3 = .ok st') :
    (∀ v, deg st'.net v = prescribedDeg degs v) ∧
    2 * st'.net.length = weightedSum degs := by
  obtain ⟨hpar, hsimple, hstl, hnl, hdeg⟩ := run_spec hok
  have hlen : stubs.length = weightedSum degs := by
    rw [hperm.length_eq, length_buildStubs]
  have hev : stubs.length % 2 = 0 := by omega
  constructor
  · intro v
    rw [hdeg v, posCnt_eq_count hev, hperm.count_eq, count_buildStubs]
  · omega

/-- C1 witness: the run on degree sequence `{2: 4}` with the shuffled stub
list `[0,1,1,2,2,3,3,0]` and no rejected samples. -/
theorem conf_model_degrees_exact_witness :
    ([0,1,1,2,2,3,3,0] : List Nat).Perm (buildStubs [(2,4)]) ∧
    single_layer_conf [] [(2,4)] [0,1,1,2,2,3,3,0] [] []
      = .ok ⟨[(0,3),(2,3),(1,2),(0,1)], [0,1,1,2,2,3,3,0]⟩ ∧
    ((∀ v, deg (RWState.mk [(0,3),(2,3),(1,2),(0,1)] [0,1,1,2,2,3,3,0]).net v
        = prescribedDeg [(2,4)] v) ∧
     2 * (RWState.mk [(0,3),(2,3),(1,2),(0,1)] [0,1,1,2,2,3,3,0]).net.length
        = weightedSum [(2,4)]) :=
  ⟨by decide, rfl,
   conf_model_degrees_exact [(2,4)] [0,1,1,2,2,3,3,0] [] []
     ⟨[(0,3),(2,3),(1,2),(0,1)], [0,1,1,2,2,3,3,0]⟩ (by decide) rfl⟩

/-- C2 (amended): an accepted rewire does not leave every node's committed
degree unchanged.  What holds instead: an accepted self-loop rewire raises the
loop node's committed degree by exactly 2 and changes no other node's degree,
and an accepted multi-edge round raises the committed degree of each endpoint
of the duplicate pair by 2 (by 1 when this round also deletes the base edge,
i.e. when the registry holds exactly 2 entries) and changes no other node's
degree. -/
theorem rewire_degree_delta :
    (∀ (multi : List Pair) (node si : Nat) (ch : Choice) (st st' : RWState),
        Inv multi st → si % 2 = 0 → si + 1 < st.stubs.length →
        selfRewire multi node si ch st = .ok st' →
        ∀ v, deg st'.net v = deg st.net v + 2 * (if v = node then 1 else 0)) ∧
    (∀ (multi : List Pair) (p : Pair) (reg : List Nat) (ch : Choice)
        (st st' : RWState) (reg' : List Nat),
        Inv multi st → p ∈ multi → p.1 < p.2 → p ∈ st.net → 2 ≤ reg.length →
        (∀ i ∈ reg, i % 2 = 0 ∧ i + 1 < st.stubs.length) →
        multiRound multi p reg ch st = .ok (st', reg') →
        ∀ v, deg st'.net v + (if reg.length = 2 then inc v p else 0)
            = deg st.net v + 2 * inc v p) := by
  constructor
  · intro multi node si ch st st' hInv hsiA hsiB hok
    exact (selfRewire_spec hInv hsiA hsiB hok).2.2.2.1
  · intro multi p reg ch st st' reg' hInv hpm hplt hpnet hreg halign hok
    exact (multiRound_spec hInv hpm hplt hpnet hreg halign hok).2.2.2.2.1

/-- C2 witness: the degree bookkeeping of an accepted self-loop rewire at a
concrete state, evaluated at the loop node. -/
theorem rewire_degree_delta_witness :
    deg [(2,4),(0,3),(0,1)] 0 = deg [(1,2),(3,4)] 0 + 2 * (if 0 = 0 then 1 else 0) :=
  rewire_degree_delta.1 [] 0 0 (1,2) ⟨[(1,2),(3,4)], [0,0,1,2,3,4]⟩
    ⟨[(2,4),(0,3),(0,1)], [2,4,0,1,0,3]⟩ (by decide) rfl (by decide) rfl 0

/-- C2 counterexample: one accepted self-loop rewire raises the loop node's
committed degree from 0 to 2, so the total degree of every node is not left
unchanged by a rewire. -/
theorem self_rewire_changes_degree_cex :
    selfRewire [] 0 0 (1,2) ⟨[(1,2),(3,4)], [0,0,1,2,3,4]⟩
      = .ok ⟨[(2,4),(0,3),(0,1)], [2,4,0,1,0,3]⟩ ∧
    deg [(1,2),(3,4)] 0 = 0 ∧ deg [(2,4),(0,3),(0,1)] 0 = 2 :=
  ⟨rfl, rfl, rfl⟩

/-- C3: the multi-edge eliminator's stub update is NOT consistent: source line
111 writes `stubs[si1]` a second time (where `si2` was intended), so an
accepted round changes the multiset of node identifiers stored in the stub
list, and the committed edge `(0,2)` of this concrete accepted round is held
by no stub slot afterwards. -/
theorem stub_update_bug_eval :
    Inv [(0,1)] ⟨[(0,1),(2,3),(4,5)], [0,1,0,1,2,3,4,5]⟩ ∧
    multiRound [(0,1)] (0,1) [0,2] (2,3) ⟨[(0,1),(2,3),(4,5)], [0,1,0,1,2,3,4,5]⟩
      = .ok (⟨[(1,5),(0,4),(1,3),(0,2)], [1,3,0,1,0,4,1,5]⟩, []) ∧
    ¬ ([0,1,0,1,2,3,4,5] : List Nat).Perm [1,3,0,1,0,4,1,5] ∧
    (0,2) ∈ ([(1,5),(0,4),(1,3),(0,2)] : Net) ∧
    (∀ s, s < 4 → slotPair [1,3,0,1,0,4,1,5] s ≠ ((0:Nat), (2:Nat))) := by
  refine ⟨by decide, rfl, by decide, by decide, by decide⟩

/-- C4: a degree sequence with odd weighted sum always fails with the
degree-sequence error, whatever the incoming target graph, stub shuffle and
samples are; the error is returned before anything is committed. -/
theorem odd_sum_degree_sequence_error (net0 : Net) (degs : Degs)
    (stubs : List Nat) (cs2 cs3 : List Choice)
    (hodd : weightedSum degs % 2 = 1) :
    single_layer_conf net0 degs stubs cs2 cs3 = .error .degreeSequenceError := by
  rw [single_layer_conf, if_pos (by omega : weightedSum degs % 2 ≠ 0)]

/-- C4 witness: the degree sequence `{1: 1}` has odd sum and fails. -/
theorem odd_sum_degree_sequence_error_witness :
    weightedSum [(1,1)] % 2 = 1 ∧
    single_layer_conf [] [(1,1)] [] [] [] = .error .degreeSequenceError :=
  ⟨by decide, odd_sum_degree_sequence_error [] [(1,1)] [] [] [] (by decide)⟩

/-- C5: `conf` with `aspects = 1` on per-layer degree dicts asking for two
different node counts fails with the layer-mismatch error before any layer is
generated. -/
theorem conf_layer_mismatch_error (degsList : List Degs)
    (stubsList : List (List Nat)) (csList : List (List Choice × List Choice))
    (ld1 ld2 : Degs) (h1 : ld1 ∈ degsList) (h2 : ld2 ∈ degsList)
    (hne : sumValues ld1 ≠ sumValues ld2) :
    conf 1 degsList stubsList csList = .error .layerMismatchError := by
  have hconf : conf 1 degsList stubsList csList =
      (if checkLayers none degsList then confLayers degsList stubsList csList
       else .error .layerMismatchError) := rfl
  cases hck : checkLayers none degsList with
  | false => rw [hconf, hck]; rfl
  | true => exact absurd (checkLayers_none_eq hck ld1 h1 ld2 h2) hne

/-- C5 witness: two layers asking for 1 and 2 nodes respectively. -/
theorem conf_layer_mismatch_error_witness :
    ([(1,1)] : Degs) ∈ [[(1,1)], [(1,2)]] ∧
    ([(1,2)] : Degs) ∈ [[(1,1)], [(1,2)]] ∧
    sumValues [(1,1)] ≠ sumValues [(1,2)] ∧
    conf 1 [[(1,1)], [(1,2)]] [] [] = .error .layerMismatchError :=
  ⟨by decide, by decide, by decide,
   conf_layer_mismatch_error [[(1,1)], [(1,2)]] [] [] [(1,1)] [(1,2)]
     (by decide) (by decide) (by decide)⟩

/-- C6 (amended): during initial pairing every slot holding two distinct
nodes is committed to the target graph with weight exactly 1 (the stored
weight is assigned `1` again, not incremented, when the edge is already
present); a self-pairing is never committed, and it is recorded both in the
self-edge registry and in the edge-to-index registry. -/
theorem pairing_commit_amended (stubs : List Nat) (t : Nat)
    (ht : t < stubs.length / 2) :
    ((slotPair stubs t).1 ≠ (slotPair stubs t).2 →
       netGet (phase1 [] stubs).net (slotPair stubs t) = 1) ∧
    ((slotPair stubs t).1 = (slotPair stubs t).2 →
       slotPair stubs t ∉ (phase1 [] stubs).net ∧
       1 ≤ selfWeight (phase1 [] stubs).selfedges (slotPair stubs t).1 ∧
       1 ≤ (alGet (phase1 [] stubs).edgetoindex (slotPair stubs t)).length) := by
  have H := p1inv_phase1 stubs
  constructor
  · intro hne
    have hlt : (slotPair stubs t).1 < (slotPair stubs t).2 :=
      lt_of_le_of_ne (slotPair_fst_le_snd stubs t) hne
    exact netGet_eq_one_iff.mpr ((H.netMem _).mpr ⟨hlt, one_le_cntSlot ht rfl⟩)
  · intro hself
    refine ⟨?_, ?_, ?_⟩
    · intro hmem
      have := ((H.netMem _).mp hmem).1
      omega
    · rw [H.selfW]
      exact one_le_cntSlot ht (Prod.ext rfl hself.symm)
    · rw [H.etiLen]
      exact one_le_cntSlot ht rfl

/-- C6 witness: the slot `(0,1)` of the stub list `[0,1]`. -/
theorem pairing_commit_amended_witness :
    0 < ([0,1] : List Nat).length / 2 ∧
    (((slotPair [0,1] 0).1 ≠ (slotPair [0,1] 0).2 →
        netGet (phase1 [] [0,1]).net (slotPair [0,1] 0) = 1) ∧
     ((slotPair [0,1] 0).1 = (slotPair [0,1] 0).2 →
        slotPair [0,1] 0 ∉ (phase1 [] [0,1]).net ∧
        1 ≤ selfWeight (phase1 [] [0,1]).selfedges (slotPair [0,1] 0).1 ∧
        1 ≤ (alGet (phase1 [] [0,1]).edgetoindex (slotPair [0,1] 0)).length)) :=
  ⟨by decide, pairing_commit_amended [0,1] 0 (by decide)⟩

/-- C6 counterexample: on the stub list `[0,1,0,1]` the pair `(0,1)` is seen
twice, and the source leaves its stored weight at 1 where the specification's
increment-on-duplicate step would store 2; and on `[0,0]` the self-pairing is
recorded in the edge-to-index registry too, not only in the self-edge
registry. -/
theorem pairing_weight_cex :
    wGet (phase1W [0,1,0,1]) (0,1) = 1 ∧
    wGet (phase1SpecW [0,1,0,1]) (0,1) = 2 ∧
    (0,1) ∈ (phase1 [] [0,1,0,1]).net ∧
    alGet (phase1 [] [0,0]).edgetoindex (0,0) = [0] ∧
    (phase1 [] [0,0]).net = [] := by
  refine ⟨rfl, rfl, by decide, rfl, rfl⟩

/-- C7: on the degree sequence `{2: 4}` every successful run yields a
2-regular simple graph on the 4 nodes with exactly 4 edges, no self-loops and
no duplicate edges, whatever the shuffle and the accepted samples were. -/
theorem two_regular_on_four_nodes (stubs : List Nat) (cs2 cs3 : List Choice)
    (st' : RWState) (hperm : stubs.Perm (buildStubs [(2,4)]))
    (hok : single_layer_conf [] [(2,4)] stubs cs2 cs3 = .ok st') :
    isRegular st'.net 4 2 ∧ simpleNet st'.net ∧ st'.net.length = 4 := by
  obtain ⟨hpar, hsimple, hstl, hnl, hdeg⟩ := run_spec hok
  have hlen : stubs.length = 8 := by
    rw [hperm.length_eq]
    rfl
  have hev : stubs.length % 2 = 0 := by omega
  refine ⟨?_, hsimple, by omega⟩
  intro v
  rw [hdeg v, posCnt_eq_count hev, hperm.count_eq, count_buildStubs,
    prescribedDeg]
  by_cases hv : v < 4
  · rw [if_pos hv, if_pos hv]
  · rw [if_neg hv, if_neg hv, prescribedDeg]

/-- C7 witness: one successful run on `{2: 4}`, yielding the 4-cycle
`0-3-2-1-0`. -/
theorem two_regular_on_four_nodes_witness :
    ([0,1,1,2,2,3,3,0] : List Nat).Perm (buildStubs [(2,4)]) ∧
    (isRegular (RWState.mk [(0,3),(2,3),(1,2),(0,1)] [0,1,1,2,2,3,3,0]).net 4 2 ∧
     simpleNet (RWState.mk [(0,3),(2,3),(1,2),(0,1)] [0,1,1,2,2,3,3,0]).net ∧
     (RWState.mk [(0,3),(2,3),(1,2),(0,1)] [0,1,1,2,2,3,3,0]).net.length = 4) :=
  ⟨by decide,
   two_regular_on_four_nodes [0,1,1,2,2,3,3,0] [] []
     ⟨[(0,3),(2,3),(1,2),(0,1)], [0,1,1,2,2,3,3,0]⟩ (by decide) rfl⟩

/-- C8: one accepted multi-edge round pops exactly two entries off the
registry, removes the two sampled edges, adds the four crosswise edges from
the duplicate pair's endpoints to the sampled edges' endpoints, and removes
the base edge exactly when the registry held exactly 2 entries; and the
eliminator runs exactly `⌊registry length / 2⌋` rounds, leaving a registry of
length `registry length mod 2 ≤ 1`. -/
theorem multi_round_effect :
    (∀ (multi : List Pair) (p : Pair) (reg : List Nat) (ch : Choice)
        (st st' : RWState) (reg' : List Nat),
        Inv multi st → p ∈ multi → p.1 < p.2 → p ∈ st.net → 2 ≤ reg.length →
        (∀ i ∈ reg, i % 2 = 0 ∧ i + 1 < st.stubs.length) →
        multiRound multi p reg ch st = .ok (st', reg') →
        reg' = reg.dropLast.dropLast ∧
        netGet st'.net
          (sortPair (nth st.stubs (2 * ch.1)) (nth st.stubs (2 * ch.1 + 1))) = 0 ∧
        netGet st'.net
          (sortPair (nth st.stubs (2 * ch.2)) (nth st.stubs (2 * ch.2 + 1))) = 0 ∧
        netGet st'.net (sortPair p.1
          (sortPair (nth st.stubs (2 * ch.1)) (nth st.stubs (2 * ch.1 + 1))).1) = 1 ∧
        netGet st'.net (sortPair p.2
          (sortPair (nth st.stubs (2 * ch.1)) (nth st.stubs (2 * ch.1 + 1))).2) = 1 ∧
        netGet st'.net (sortPair p.1
          (sortPair (nth st.stubs (2 * ch.2)) (nth st.stubs (2 * ch.2 + 1))).1) = 1 ∧
        netGet st'.net (sortPair p.2
          (sortPair (nth st.stubs (2 * ch.2)) (nth st.stubs (2 * ch.2 + 1))).2) = 1 ∧
        (reg.length ≠ 2 → p ∈ st'.net) ∧ (reg.length = 2 → p ∉ st'.net)) ∧
    (∀ (multi : List Pair) (p : Pair) (reg : List Nat) (cs : List Choice)
        (st st' : RWState) (reg' : List Nat) (cs' : List Choice),
        Inv multi st → p ∈ multi → p.1 < p.2 →
        (1 ≤ reg.length / 2 → p ∈ st.net) →
        (∀ i ∈ reg, i % 2 = 0 ∧ i + 1 < st.stubs.length) →
        runMultiRounds multi p (reg.length / 2) reg cs st = .ok (st', reg', cs') →
        reg'.length = reg.length % 2 ∧ reg'.length ≤ 1) := by
  constructor
  · intro multi p reg ch st st' reg' hInv hpm hplt hpnet hreg halign hok
    obtain ⟨-, -, hr, -, -, -, hkeep, hrem, h1, h2, h3, h4, h5, h6⟩ :=
      multiRound_spec hInv hpm hplt hpnet hreg halign hok
    exact ⟨hr, h1, h2, h3, h4, h5, h6, hkeep, hrem⟩
  · intro multi p reg cs st st' reg' cs' hInv hpm hplt hpnet halign hok
    obtain ⟨-, -, hr, -, -, -⟩ :=
      runMultiRounds_spec (reg.length / 2) reg cs st st' reg' cs' hInv hpm hplt
        hpnet (by omega) halign hok
    constructor <;> omega

/-- C8 witness: the accepted round of the registry `[0,2]` (length exactly 2)
at a concrete state, which pops both entries, removes the sampled edges
`(0,1)` (slot 1) and `(2,3)`, adds the four crosswise edges and deletes the
base edge `(0,1)`. -/
theorem multi_round_effect_witness :
    ([] : List Nat).length = ([0,2] : List Nat).length % 2 ∧
    ([] : List Nat).length ≤ 1 :=
  multi_round_effect.2 [(0,1)] (0,1) [0,2] [(2,3)]
    ⟨[(0,1),(2,3),(4,5)], [0,1,0,1,2,3,4,5]⟩
    ⟨[(1,5),(0,4),(1,3),(0,2)], [1,3,0,1,0,4,1,5]⟩ [] []
    (by decide) (by decide) (by decide) (fun _ => by decide) (by decide) rfl

end Pymnet

namespace Pymnet

/-- C9: no execution of `single_layer_conf` — and in particular no accepted
sample of the multi-edge eliminator under the slot/edge invariant — ends in a
failed `assert`: whenever the acceptance conditions hold, the two sampled stub
pairs are committed edges of the target graph. -/
theorem multi_asserts_never_fail :
    (∀ (multi : List Pair) (p : Pair) (reg : List Nat) (ch : Choice)
        (st : RWState), Inv multi st → p ∈ multi →
        multiRound multi p reg ch st ≠ .error .assertionFailed) ∧
    (∀ (degs : Degs) (stubs : List Nat) (cs2 cs3 : List Choice),
        single_layer_conf [] degs stubs cs2 cs3 ≠ .error .assertionFailed) :=
  ⟨fun _ _ _ _ _ hInv hpm => multiRound_no_assert hInv hpm,
   fun degs stubs cs2 cs3 => run_no_assert degs stubs cs2 cs3⟩

/-- C10: a node whose prescribed degree is 0 is absent from the output graph
(it is the endpoint of no committed edge), and the empty degree sequence
always succeeds and builds the empty graph. -/
theorem zero_degree_nodes_absent (pre post : Degs) (num : Nat)
    (stubs : List Nat) (cs2 cs3 : List Choice) (st' : RWState) (v : Nat)
    (hperm : stubs.Perm (buildStubs (pre ++ (0, num) :: post)))
    (hok : single_layer_conf [] (pre ++ (0, num) :: post) stubs cs2 cs3 = .ok st')
    (hlo : sumValues pre ≤ v) (hhi : v < sumValues pre + num) :
    (∀ p ∈ st'.net, p.1 ≠ v ∧ p.2 ≠ v) ∧ emptyConfOk := by
  obtain ⟨hpar, hsimple, hstl, hnl, hdeg⟩ := run_spec hok
  have hev : stubs.length % 2 = 0 := by
    rw [hperm.length_eq, length_buildStubs]
    omega
  have hdv : deg st'.net v = 0 := by
    rw [hdeg v, posCnt_eq_count hev, hperm.count_eq, count_buildStubs]
    exact prescribedDeg_append_zero num post pre v hlo hhi
  constructor
  · intro p hp
    unfold deg at hdv
    have h0 := List.countP_eq_zero.mp hdv p hp
    simp only [Bool.or_eq_true, beq_iff_eq, not_or] at h0
    exact h0
  · intro c2 c3
    rfl

/-- C10 witness: the degree sequence `{0: 1, 1: 2}` — node 0 has degree 0 and
is absent from the resulting one-edge graph on nodes 1 and 2. -/
theorem zero_degree_nodes_absent_witness :
    ([1,2] : List Nat).Perm (buildStubs ([] ++ (0, 1) :: [(1,2)])) ∧
    sumValues [] ≤ 0 ∧ 0 < sumValues [] + 1 ∧
    ((∀ p ∈ (RWState.mk [(1,2)] [1,2]).net, p.1 ≠ 0 ∧ p.2 ≠ 0) ∧ emptyConfOk) :=
  ⟨by decide, by decide, by decide,
   zero_degree_nodes_absent [] [(1,2)] 1 [1,2] [] [] ⟨[(1,2)], [1,2]⟩ 0
     (by decide) rfl (by decide) (by decide)⟩

end Pymnet
